import Mathlib

/-!
Verification of the exekall expression-graph engine
(`src/tools/exekall/exekall/engine.py`).

The Python engine is shallowly embedded as follows:

* Python object values are encoded with `PyVal`: the `NoValue` singleton
  sentinel is `PyVal.noValue`, Python `None` is `PyVal.pyNone`, and every
  other object is `PyVal.obj n` for an identity/content token `n : Nat`.
* `ExprValue` objects become the inductive `EV`: the fields mirror
  `ExprValue.__init__` (value, value_uuid, excep, excep_uuid, the owning
  expression, and the parameter map `param_expr_val_map`).  Python object
  identity of an `ExprValue` is modelled by the creation token `evId`:
  the engine creates every `ExprValue` object with a fresh token, so two
  engine-created values are the same object exactly when their tokens agree.
* Generators are evaluated eagerly: a Python generator becomes the list of
  the elements it yields.  None of the properties proved here depend on
  partial consumption of a generator (re-entrant lazy iteration, where
  laziness is observable, is modelled separately and faithfully as a small
  step machine, see `IterCfg` below).
-/

/-- Python values as seen by the engine: the `NoValue` singleton sentinel
(`_NoValueType`, falsy, equal only to itself), Python `None`, or any other
object identified by a token. -/
inductive PyVal where
  | noValue
  | pyNone
  | obj (n : Nat)
deriving DecidableEq, Repr

/- `ExprValue` (engine.py line 1773): one produced result.  `params` is
`param_expr_val_map`; `evId` models the Python object identity of the
`ExprValue` (fresh at every `ExprValue(...)` construction).
`EVParams` is the entry list of the ordered dict `param → ExprValue`. -/
mutual
inductive EV where
  | mk (evId : Nat) (exprId : Nat) (value : PyVal) (valueUuid : Option Nat)
       (excep : PyVal) (excepUuid : Option Nat) (params : EVParams)
deriving DecidableEq
inductive EVParams where
  | nil
  | cons (name : String) (ev : EV) (rest : EVParams)
deriving DecidableEq
end

def EV.evId : EV → Nat
  | .mk i _ _ _ _ _ _ => i

def EV.exprId : EV → Nat
  | .mk _ e _ _ _ _ _ => e

def EV.value : EV → PyVal
  | .mk _ _ v _ _ _ _ => v

def EV.valueUuid : EV → Option Nat
  | .mk _ _ _ u _ _ _ => u

def EV.excep : EV → PyVal
  | .mk _ _ _ _ x _ _ => x

def EV.excepUuid : EV → Option Nat
  | .mk _ _ _ _ _ u _ => u

def EV.params : EV → EVParams
  | .mk _ _ _ _ _ _ p => p

/-- Build the `param_expr_val_map` entry list from a Lean association list. -/
def EVParams.ofList : List (String × EV) → EVParams
  | [] => .nil
  | (n, ev) :: rest => .cons n ev (EVParams.ofList rest)

def EVParams.toList : EVParams → List (String × EV)
  | .nil => []
  | .cons n ev rest => (n, ev) :: EVParams.toList rest

/- `ExprValue.get_parent_expr_vals` / `_get_expr_map` traversal order
(engine.py lines 1883..1908): the value itself first, then depth-first into
`param_expr_val_map.values()` in order. -/
mutual
def EV.collect : EV → List EV
  | .mk i e v vu x xu ps => .mk i e v vu x xu ps :: EVParams.collect ps
def EVParams.collect : EVParams → List EV
  | .nil => []
  | .cons _ ev rest => EV.collect ev ++ EVParams.collect rest
end

/-- Membership of an expression in `_get_expr_map(...)'s` keys. -/
def EV.hasExpr (ev : EV) (e : Nat) : Bool :=
  (EV.collect ev).any (fun x => x.exprId == e)

/-- `_get_expr_map()[e]` (engine.py line 1899): the traversal assigns
`expr_map[expr_val.expr] = expr_val` for every visited value, so the last
visited value for a given expression wins. -/
def EV.exprMapGet (ev : EV) (e : Nat) : Option EV :=
  (EV.collect ev).reverse.find? (fun x => x.exprId == e)

/-- Object identity of an optional `ExprValue` (see `EV.evId`). -/
def optEvId : Option EV → Option Nat
  | none => none
  | some ev => some ev.evId

/-- The inner `all(...)` of `ExprValue.validate_expr_val_list`
(engine.py lines 1820..1827): for every expression in
`expr_map.keys() & expr_map_ref.keys()` whose operator is reusable, the two
maps must hold the identical `ExprValue` object (`is` comparison).
`ru e` is `expr.op.reusable` for the expression with id `e`. -/
def evCompat (ru : Nat → Bool) (ref ev : EV) : Bool :=
  (EV.collect ev).all (fun x =>
    !(ref.hasExpr x.exprId) || !(ru x.exprId) ||
      (optEvId (ref.exprMapGet x.exprId) == optEvId (ev.exprMapGet x.exprId)))

/-- `ExprValue.validate_expr_val_list` (engine.py lines 1806..1833).
The Python loop checks, for each `expr_val` in `expr_val_list[1:]`, the
compatibility of `expr_val_list[0]` with `expr_val` and then recursively
validates `expr_val_list[2:]`; the recursive call is pure and identical on
every loop iteration, so it is hoisted into `sub` here. -/
def validateExprValList (ru : Nat → Bool) : List EV → Bool
  | [] => true
  | [_] => true
  | ref :: b :: rest =>
    let sub := validateExprValList ru rest
    (b :: rest).all (fun ev => evCompat ru ref ev && sub)

/-- `ExprValue.expr_val_product` (engine.py lines 1835..1874), with
generators evaluated eagerly to lists.  The `infinite_iter` caching of the
sub-product (engine.py lines 1276..1285) replays the same element list on
every traversal, which in the eager model is just reusing `subLists`. -/
def exprValProduct (ru : Nat → Bool) : List (List EV) → List (List EV)
  | [] => []
  | g :: gs =>
    match gs with
    | [] =>
      g.filterMap (fun ev =>
        if validateExprValList ru [ev] then some [ev] else none)
    | _ :: _ =>
      let subLists := exprValProduct ru gs
      g.foldr (fun ev acc =>
        (if ev.value == PyVal.noValue then
          [[ev]]
        else
          subLists.filterMap (fun sub =>
            if validateExprValList ru (ev :: sub) then some (ev :: sub)
            else none)) ++ acc) []

/-- `consume_gen_map` (engine.py lines 1292..1303): an empty parameter map
yields exactly one empty mapping, otherwise the parameter names are zipped
with each combination produced by `product`. -/
def consumeGenMap (product : List (List EV) → List (List EV))
    (pm : List (String × List EV)) : List (List (String × EV)) :=
  match pm with
  | [] => [[]]
  | _ :: _ =>
    (product (pm.map (·.2))).map (fun vals => (pm.map (·.1)).zip vals)

/-- A placeholder `ExprValue` standing for the `StopIteration` that
`next(...)` in `no_product` would raise on an empty generator; never reached
in the proved scenarios. -/
def dummyEV : EV := .mk 0 0 .noValue none .noValue none .nil

/-- `no_product` (engine.py lines 1287..1290): take only the first value of
each generator. -/
def noProduct (gens : List (List EV)) : List (List EV) :=
  [gens.map (fun g => g.headD dummyEV)]

/-- `any_value_is_NoValue` (engine.py lines 1717..1721), applied to the
values of a parameter binding. -/
def anyValueIsNoValue (binding : List (String × EV)) : Bool :=
  binding.any (fun p => p.2.value == PyVal.noValue)

/-- The callable wrapped by an `Operator`: either a plain single-valued
callable (returns one value or raises) or a generator function
(`inspect.isgeneratorfunction`), which yields a list of values and may then
raise an exception before finishing.  Arguments are passed as the keyword
map `param → value`.  Exceptions are identified by a token. -/
inductive OpImpl where
  | single (f : List (String × PyVal) → Except Nat PyVal)
  | gen (f : List (String × PyVal) → List PyVal × Option Nat)

/-- The two synthetic operators (`Consumer`, `ExprData`) are handled as
atomic injection points in `Expression._execute` (engine.py lines
1251..1262) instead of being invoked. -/
inductive OpKind where
  | normal
  | consumer
  | exprData
deriving DecidableEq, Repr

/-- The slice of `Operator` that execution uses: the callable identity, the
`reusable` flag and the invocation behaviour. -/
structure EOp where
  callableId : Nat
  reusable : Bool
  kind : OpKind
  impl : OpImpl

/-- One ((value, value_uuid), (excep, excep_uuid)) pair as yielded by
`Operator.generator_wrapper`. -/
abbrev EVPair := (PyVal × Option Nat) × (PyVal × Option Nat)

/-- Uuid assignment for the values yielded by a generator function: one
fresh uuid per yielded value, in order (`utils.create_uuid()`). -/
def genValuePairs (vals : List PyVal) (ctr : Nat) : List EVPair :=
  match vals with
  | [] => []
  | v :: rest => ((v, some ctr), (PyVal.noValue, none)) :: genValuePairs rest (ctr + 1)

/-- `Operator.generator_wrapper` (engine.py lines 1509..1537), evaluated
eagerly, threading the uuid counter.  A single-valued callable yields
exactly one pair; a generator function yields its values verbatim, appends
one exception pair if iteration raised, and yields one `(NoValue, NoValue)`
pair if it produced nothing at all. -/
def generatorWrapper (impl : OpImpl) (args : List (String × PyVal)) (ctr : Nat) :
    List EVPair × Nat :=
  match impl with
  | .single f =>
    match f args with
    | .ok v => ([((v, some ctr), (PyVal.noValue, none))], ctr + 1)
    | .error e => ([((PyVal.noValue, none), (PyVal.obj e, some ctr))], ctr + 1)
  | .gen f =>
    let (vals, raised) := f args
    let pairs := genValuePairs vals ctr
    match raised with
    | some e =>
      (pairs ++ [((PyVal.noValue, none), (PyVal.obj e, some (ctr + vals.length)))],
       ctr + vals.length + 1)
    | none =>
      if vals.isEmpty then
        ([((PyVal.noValue, none), (PyVal.noValue, none))], ctr)
      else
        (pairs, ctr + vals.length)

/-- One node of the (deduplicated) `Expression` DAG, stored in an arena
indexed by expression id.  `params` is `param_map` (param name → arena index
of the sub-Expression); `data`/`dataUuid` are `Expression.data` and
`Expression.data_uuid`. -/
structure ENode where
  op : EOp
  params : List (String × Nat)
  data : Nat
  dataUuid : Nat

/-- `ExprValueSeq` as recorded in `Expression.result_list`: the owning
expression, the `param_expr_val_map` the sequence was computed for, and the
produced values.  The value list is materialised eagerly (the engine's lazy
iterator is fully consumed by the eager executor). -/
structure EVSeq where
  exprId : Nat
  binding : List (String × EV)
  valueList : List EV

/-- Execution state: the expression arena, all `result_list` entries of all
expressions (in append order; `Expression.result_list` of `e` is the
sublist with `exprId = e`), the fresh-token counter backing both
`utils.create_uuid()` and `ExprValue` object identities, and a log of the
expressions whose operator callable was actually invoked. -/
structure EState where
  arena : List ENode
  results : List EVSeq
  ctr : Nat
  invoked : List Nat

/-- A junk node for out-of-range arena lookups (never reached on
well-formed input). -/
def dummyENode : ENode :=
  { op := { callableId := 0, reusable := false, kind := .normal,
            impl := .single (fun _ => .error 0) },
    params := [], data := 0, dataUuid := 0 }

def getNode (s : EState) (e : Nat) : ENode :=
  s.arena.getD e dummyENode

/-- `expr.op.reusable` for the expression with arena index `e`. -/
def reusableOf (s : EState) (e : Nat) : Bool :=
  (getNode s e).op.reusable

/-- `Expression.result_list` of expression `e`. -/
def resultsOf (s : EState) (e : Nat) : List EVSeq :=
  s.results.filter (fun q => q.exprId == e)

/-- The `value_map` helper of `Expression.find_result_list` (engine.py
lines 402..408): extract the actual value from each `ExprValue` of a
parameter map. -/
def bindingValues (binding : List (String × EV)) : List (String × PyVal) :=
  binding.map (fun p => (p.1, p.2.value))

/-- Python `dict.items() <= dict.items()`: every (key, value) pair of the
left map occurs in the right map. -/
def itemsSubset (a b : List (String × PyVal)) : Bool :=
  a.all (fun kv => b.contains kv)

/-- `Expression.find_result_list` (engine.py lines 401..418): the recorded
sequences whose parameter values are a superset of the queried binding's
values (so querying with only the reusable parameters matches). -/
def findResultList (s : EState) (e : Nat) (binding : List (String × EV)) :
    List EVSeq :=
  (resultsOf s e).filter (fun q =>
    itemsSubset (bindingValues binding) (bindingValues q.binding))

def dummySeq : EVSeq := { exprId := 0, binding := [], valueList := [] }

/-- Turn the pairs yielded by an operator invocation into `ExprValue`
objects (`ExprValueSeq.iter_expr_val`, engine.py lines 1693..1700): each
pair becomes one freshly allocated `ExprValue` carrying the binding. -/
def mkEVs (e : Nat) (binding : List (String × EV)) (pairs : List EVPair)
    (ctr : Nat) : List EV × Nat :=
  match pairs with
  | [] => ([], ctr)
  | ((v, vu), (x, xu)) :: rest =>
    let ev := EV.mk ctr e v vu x xu (EVParams.ofList binding)
    let (evs, ctr') := mkEVs e binding rest (ctr + 1)
    (ev :: evs, ctr')

/-- The value injected for a `Consumer` expression (engine.py lines
1253..1258): the callable of `consumer_expr_stack[-2]`, or `None` when the
stack is too short (`IndexError` branch). -/
def consumerValue (s : EState) (stack : List Nat) : PyVal :=
  match stack.reverse with
  | _ :: c :: _ => PyVal.obj (getNode s c).op.callableId
  | _ => PyVal.pyNone

/-- The invocation tail of the `Expression._execute` loop body (engine.py
lines 1243..1274): extract the actual parameter values, build the pair
iterator (the `Consumer` and `ExprData` operators are injected atomically,
every other operator goes through `generator_wrapper`, which is the only
point that logs an invocation), materialise the `ExprValueSeq`, append it
to `result_list` and yield its values. -/
def invokeBinding (s : EState) (e : Nat) (stack : List Nat)
    (binding : List (String × EV)) : EState × List EV :=
  let node := getNode s e
  let argVals := bindingValues binding
  let (pairs, s) :=
    match node.op.kind with
    | .consumer =>
      ([((consumerValue s stack, none), (PyVal.noValue, none))], s)
    | .exprData =>
      let root := getNode s (stack.headD 0)
      ([((PyVal.obj root.data, some root.dataUuid), (PyVal.noValue, none))], s)
    | .normal =>
      let (pairs, ctr') := generatorWrapper node.op.impl argVals s.ctr
      (pairs, { s with ctr := ctr', invoked := s.invoked ++ [e] })
  let (evs, ctr') := mkEVs e binding pairs s.ctr
  ({ s with ctr := ctr',
            results := s.results ++ [⟨e, binding, evs⟩] }, evs)

/-- The loop body of `Expression._execute` for one combination of reusable
parameter values (engine.py lines 1183..1274), parameterised by the
executor used to compute the non-reusable parameters.  Steps, in source
order: memoisation lookup for reusable operators; computation of the
non-reusable parameters (first value of each, `no_product`) when all
reusable parameters resolved to actual values; the NoValue short-circuit
recording a single unresolved `ExprValue` without invoking the operator;
otherwise invocation via `invokeBinding`. -/
def execOneBindingWith
    (exec : EState → Nat → List Nat → EState × List EV)
    (s : EState) (e : Nat) (stack : List Nat)
    (binding : List (String × EV)) : EState × List EV :=
  let node := getNode s e
  let paramMapLen := node.params.length
  let reusableParamMapLen :=
    (node.params.filter (fun p => reusableOf s p.2)).length
  let reusableParamComputed := binding.length == reusableParamMapLen
  if node.op.reusable && reusableParamComputed &&
      !(findResultList s e binding).isEmpty then
    (s, ((findResultList s e binding).headD dummySeq).valueList)
  else
    let computed :=
      if reusableParamComputed && !anyValueIsNoValue binding then
        let nonReusable := node.params.filter (fun p => !(reusableOf s p.2))
        let folded := nonReusable.foldl
          (fun (acc : EState × List (String × List EV)) p =>
            ((exec acc.1 p.2 (stack ++ [e])).1,
             acc.2 ++ [(p.1, (exec acc.1 p.2 (stack ++ [e])).2)]))
          (s, [])
        (folded.1, binding ++ ((consumeGenMap noProduct folded.2).headD []))
      else (s, binding)
    if computed.2.length != paramMapLen || anyValueIsNoValue computed.2 then
      let ev := EV.mk computed.1.ctr e .noValue none .noValue none
        (EVParams.ofList computed.2)
      ({ computed.1 with
          ctr := computed.1.ctr + 1,
          results := computed.1.results ++ [⟨e, computed.2, [ev]⟩] },
       [ev])
    else
      invokeBinding computed.1 e stack computed.2

/-- Iterate `execOneBindingWith` over the combinations yielded by
`consume_gen_map` (the `for param_expr_val_map in consume_gen_map(...)`
loop of `Expression._execute`), concatenating the yielded values. -/
def execBindingsWith
    (exec : EState → Nat → List Nat → EState × List EV)
    (s : EState) (e : Nat) (stack : List Nat) :
    List (List (String × EV)) → EState × List EV
  | [] => (s, [])
  | b :: bs =>
    let r := execOneBindingWith exec s e stack b
    let rs := execBindingsWith exec r.1 e stack bs
    (rs.1, r.2 ++ rs.2)

/-- `Expression._execute` (engine.py lines 1159..1274), evaluated eagerly
with a fuel bound on the recursion depth (the expression DAG is acyclic, so
any fuel larger than its depth gives the real result): execute every
reusable parameter, combine their values with
`consume_gen_map(..., product=ExprValue.expr_val_product)`, and run the
per-combination loop body. -/
def execExpr : Nat → EState → Nat → List Nat → EState × List EV
  | 0, s, _, _ => (s, [])
  | Nat.succ fuel, s, e, stack =>
    let node := getNode s e
    let reusableParams := node.params.filter (fun p => reusableOf s p.2)
    let folded := reusableParams.foldl
      (fun (acc : EState × List (String × List EV)) p =>
        ((execExpr fuel acc.1 p.2 (stack ++ [e])).1,
         acc.2 ++ [(p.1, (execExpr fuel acc.1 p.2 (stack ++ [e])).2)]))
      (s, [])
    let bindings := consumeGenMap (exprValProduct (reusableOf folded.1)) folded.2
    execBindingsWith (execExpr fuel) folded.1 e stack bindings

/-- The per-binding loop body with the recursive executor plugged in. -/
def execOneBinding (fuel : Nat) : EState → Nat → List Nat →
    List (String × EV) → EState × List EV :=
  fun s e stack binding => execOneBindingWith (execExpr fuel) s e stack binding

/-- `Expression.execute` (engine.py line 1156): start with an empty
consumer stack. -/
def executeExpr (fuel : Nat) (s : EState) (e : Nat) : EState × List EV :=
  execExpr fuel s e []

/-- The slice of `Operator` that graph building uses (`ExpressionWrapper.
_build_expr`): `opId` models the Python object identity of the `Operator`
instance (`op in op_stack` compares identities), `callableId` /
`callableName` model `op.callable_` and its `__name__`, `paramList` and
`produced` are `op.get_prototype()`, `optionalParams` is
`op.optional_param` and `isMethod` is `op.is_method`.  Classes are
identified by tokens (`Nat`). -/
structure BOp where
  opId : Nat
  name : String
  callableName : String
  callableId : Nat
  paramList : List (String × Nat)
  produced : Nat
  optionalParams : List String
  isMethod : Bool
deriving DecidableEq, Repr

/-- An `Expression` as constructed during graph building: `Expression(op,
OrderedDict(zip(param_list, param_combi)))`. -/
inductive BExpr where
  | mk (op : BOp) (params : List (String × BExpr))

def BExpr.op : BExpr → BOp
  | .mk op _ => op

def BExpr.paramNames : BExpr → List String
  | .mk _ params => params.map (·.1)

/-- The exceptions `_build_expr` can raise, carrying the data interpolated
into the Python error messages: `CycleError` names every operator of
`new_op_stack`, `NoOperatorError` names the missing class, the operator,
the parameter and the path (`op.name for op in op_stack`), and an invalid
handler raises `ValueError`. -/
inductive BuildErr where
  | cycleError (chain : List String)
  | noOperatorError (cls : Nat) (opName : String) (param : String)
      (path : List String)
  | valueError
deriving DecidableEq, Repr

/-- A call made to a caller-supplied handler during building:
`cycle_handler(tuple(op.callable_ for op in new_op_stack))` or
`non_produced_handler(wanted_cls.__qualname__, op.name, param,
tuple(op.resolved_callable for op in op_stack))`.  The missing class is
kept as its token. -/
inductive HandlerCall where
  | cycleCall (handlerId : Nat) (chain : List Nat)
  | nonProducedCall (handlerId : Nat) (cls : Nat) (opName : String)
      (param : String) (path : List Nat)
deriving DecidableEq, Repr

/-- A `cycle_handler` / `non_produced_handler` argument: the string
`'raise'` (`fatal`), the string `'ignore'`, a callable identified by a
token, or any other (invalid) value. -/
inductive Handler where
  | fatal
  | ignore
  | callback (handlerId : Nat)
  | invalid
deriving DecidableEq, Repr

/-- Association-list lookup, modelling Python `dict` lookup by key. -/
def alistGet {α : Type} : List (Nat × α) → Nat → Option α
  | [], _ => none
  | kv :: rest, c => if kv.1 == c then some kv.2 else alistGet rest c

/-- `list.index(x)`: index of the first occurrence. -/
def listIndexOf (l : List String) (x : String) : Nat :=
  match l with
  | [] => 0
  | y :: rest => if y == x then 0 else listIndexOf rest x + 1

/-- Modelled from the spec: `utils.remove_indices` (the `exekall._utils`
module is not part of the sources); per §4.2 of the spec, parameters whose
indices were marked ignored are "simply omitted from the built
Expression", so this drops the elements at the given indices (`i` is the
index of the head of the remaining list). -/
def removeIndicesFrom {α : Type} (idxs : List Nat) : Nat → List α → List α
  | _, [] => []
  | i, x :: rest =>
    if idxs.contains i then removeIndicesFrom idxs (i + 1) rest
    else x :: removeIndicesFrom idxs (i + 1) rest

def removeIndices {α : Type} (l : List α) (idxs : List Nat) : List α :=
  removeIndicesFrom idxs 0 l

def zip3 {α β γ : Type} : List α → List β → List γ → List (α × β × γ)
  | a :: as, b :: bs, c :: cs => (a, b, c) :: zip3 as bs cs
  | _, _, _ => []

/-- `itertools.product` over materialised iterables, in itertools order
(leftmost factor varies slowest). -/
def listProduct {α : Type} : List (List α) → List (List α)
  | [] => [[]]
  | l :: rest =>
    (l.map (fun x => (listProduct rest).map (fun c => x :: c))).flatten

/-- The availability-check loop of `_build_expr` (engine.py lines
278..303): walk `zip(param_list, cls_list, cls_combis)`; a parameter with
no available class is added to `ignored_indices` when optional, and
otherwise triggers the non-produced policy (modelled by the error case,
which carries the wanted class and the parameter). -/
def checkAvailability (optionalParams : List String) (names : List String) :
    List (String × Nat × List Nat) → Except (Nat × String) (List Nat)
  | [] => .ok []
  | (param, wanted, avail) :: rest =>
    if avail.isEmpty then
      if optionalParams.contains param then
        match checkAvailability optionalParams names rest with
        | .ok ignored => .ok (listIndexOf names param :: ignored)
        | .error e => .error e
      else
        .error (wanted, param)
    else
      checkAvailability optionalParams names rest

/-- Run the recursive builds for the operators of one `op_combi` (the
generators handed to `itertools.product`, which materialises its input
iterables eagerly), threading the handler-call log and propagating any
exception. -/
def buildSubList
    (build : BOp → List HandlerCall →
      Except BuildErr (List BExpr × List HandlerCall)) :
    List BOp → List HandlerCall →
      Except BuildErr (List (List BExpr) × List HandlerCall)
  | [], log => .ok ([], log)
  | pop :: rest, log =>
    match build pop log with
    | .error e => .error e
    | .ok (exprs, log) =>
      match buildSubList build rest log with
      | .error e => .error e
      | .ok (lists, log) => .ok (exprs :: lists, log)

/-- The `for param_combi in param_combis` loop: each combination is zipped
with the (filtered) parameter names and yields an Expression only `if
len(param_map) == param_list_len` (engine.py lines 334..341). -/
def combosToExprs (op : BOp) (paramNames : List String) (plen : Nat)
    (combis : List (List BExpr)) : List BExpr :=
  combis.filterMap (fun combi =>
    let pm := paramNames.zip combi
    if pm.length == plen then some (BExpr.mk op pm) else none)

/-- The `for op_combi in itertools.product(*op_combis)` loop (engine.py
lines 324..341). -/
def buildOpCombis
    (build : BOp → List HandlerCall →
      Except BuildErr (List BExpr × List HandlerCall))
    (op : BOp) (paramNames : List String) (plen : Nat) :
    List (List BOp) → List HandlerCall →
      Except BuildErr (List BExpr × List HandlerCall)
  | [], log => .ok ([], log)
  | opCombi :: rest, log =>
    match buildSubList build opCombi log with
    | .error e => .error e
    | .ok (lists, log) =>
      let exprs := combosToExprs op paramNames plen (listProduct lists)
      match buildOpCombis build op paramNames plen rest log with
      | .error e => .error e
      | .ok (more, log) => .ok (exprs ++ more, log)

/-- The `for cls_combi in itertools.product(*cls_combis)` loop (engine.py
lines 311..341): classes with no entry in `op_map` are skipped
(`if cls in op_map`), then all operator combinations are explored. -/
def buildClsCombis
    (build : BOp → List HandlerCall →
      Except BuildErr (List BExpr × List HandlerCall))
    (op : BOp) (opMap : List (Nat × List BOp)) (paramNames : List String)
    (plen : Nat) :
    List (List Nat) → List HandlerCall →
      Except BuildErr (List BExpr × List HandlerCall)
  | [], log => .ok ([], log)
  | clsCombi :: rest, log =>
    let opCombis := clsCombi.filterMap (fun c => alistGet opMap c)
    match buildOpCombis build op paramNames plen (listProduct opCombis) log with
    | .error e => .error e
    | .ok (exprs, log) =>
      match buildClsCombis build op opMap paramNames plen rest log with
      | .error e => .error e
      | .ok (more, log) => .ok (exprs ++ more, log)

/-- The per-parameter candidate class lists of `_build_expr` (engine.py
lines 264..275): `cls_map.get(cls, list())` for every parameter, with the
receiver filter for methods (`getattr(cls, op.callable_.__name__, None) is
op.callable_`, modelled by the environment `attrs`). -/
def candidateClsCombis (op : BOp) (clsMap : List (Nat × List Nat))
    (attrs : Nat → String → Option Nat) : List (List Nat) :=
  let clsCombis := (op.paramList.map (·.2)).map
    (fun c => (alistGet clsMap c).getD [])
  if op.isMethod then
    match clsCombis with
    | first :: rest =>
      first.filter (fun c => attrs c op.callableName == some op.callableId)
        :: rest
    | [] => []
  else clsCombis

/-- The `zip(param_list, cls_list, cls_combis)` walked by the availability
check of `_build_expr`. -/
def availabilityTriples (op : BOp) (clsMap : List (Nat × List Nat))
    (attrs : Nat → String → Option Nat) : List (String × Nat × List Nat) :=
  zip3 (op.paramList.map (·.1)) (op.paramList.map (·.2))
    (candidateClsCombis op clsMap attrs)

/-- `ExpressionWrapper._build_expr` (engine.py lines 235..341), evaluated
eagerly (the caller `build_expr_list` exhausts the generator), with a fuel
bound on recursion depth.  In source order: cycle detection against
`op_stack` with the three-way `cycle_handler` policy; the trivial
Expression for an operator without parameters; candidate classes per
parameter from `cls_map` with the method-receiver filter
(`getattr(cls, op.callable_.__name__, None) is op.callable_`, modelled by
`attrs`); the availability check with the three-way
`non_produced_handler` policy and optional-parameter omission; and the
triple cartesian product over classes, operators and sub-expressions. -/
def buildExpr : Nat → BOp → List (Nat × List BOp) → List (Nat × List Nat) →
    (Nat → String → Option Nat) → List BOp → Handler → Handler →
    List HandlerCall → Except BuildErr (List BExpr × List HandlerCall)
  | 0, _, _, _, _, _, _, _, log => .ok ([], log)
  | Nat.succ fuel, op, opMap, clsMap, attrs, opStack, nph, ch, log =>
    let newOpStack := op :: opStack
    if opStack.contains op then
      match ch with
      | .ignore => .ok ([], log)
      | .callback h =>
        .ok ([], log ++ [.cycleCall h (newOpStack.map (·.callableId))])
      | .fatal => .error (.cycleError (newOpStack.map (·.name)))
      | .invalid => .error .valueError
    else if op.paramList.isEmpty then
      .ok ([BExpr.mk op []], log)
    else
      let paramNames := op.paramList.map (·.1)
      let clsCombis := candidateClsCombis op clsMap attrs
      match checkAvailability op.optionalParams paramNames
          (availabilityTriples op clsMap attrs) with
      | .error fatalParam =>
        match nph with
        | .ignore => .ok ([], log)
        | .callback h =>
          .ok ([], log ++ [.nonProducedCall h fatalParam.1 op.name fatalParam.2
            (newOpStack.map (·.callableId))])
        | .fatal =>
          .error (.noOperatorError fatalParam.1 op.name fatalParam.2
            (newOpStack.map (·.name)))
        | .invalid => .error .valueError
      | .ok ignored =>
        let paramNames := removeIndices paramNames ignored
        let clsCombis := removeIndices clsCombis ignored
        buildClsCombis
          (fun pop log =>
            buildExpr fuel pop opMap clsMap attrs newOpStack nph ch log)
          op opMap paramNames paramNames.length (listProduct clsCombis) log

/-- A Python `Expression` object as a heap node, for the deduplication pass
(`Expression._prepare_exec`): the operator callable identity, and the two
attributes that matter for the frame property — `param_map` and
`result_list` — kept as references into the heap because `copy.copy`
shares the referenced objects between the copy and the original. -/
structure PExpr where
  opCallable : Nat
  paramMapRef : Nat
  resultListRef : Nat
deriving DecidableEq, Repr

/-- The heap: `Expression` objects, `param_map` ordered dicts (param name →
expression reference), and `result_list` lists (contents abstracted to
tokens). -/
structure PHeap where
  exprs : List PExpr
  dicts : List (List (String × Nat))
  lists : List (List Nat)
deriving DecidableEq, Repr

def getPExpr (h : PHeap) (r : Nat) : PExpr :=
  h.exprs.getD r ⟨0, 0, 0⟩

def getDict (h : PHeap) (r : Nat) : List (String × Nat) :=
  h.dicts.getD r []

/-- Python `dict.__setitem__`: replace in place when the key exists,
append otherwise (in `_prepare_exec` the key always exists). -/
def dictSet : List (String × Nat) → String → Nat → List (String × Nat)
  | [], k, v => [(k, v)]
  | kv :: rest, k, v =>
    if kv.1 == k then (k, v) :: rest else kv :: dictSet rest k v

/-- `Expression._prepare_exec` (engine.py lines 1129..1154) on the heap
model.  `copy.copy(self)` allocates a new `Expression` whose attribute
dict is copied shallowly, so the copy shares `self`'s `param_map` dict;
`discard_result()` then rebinds (only) the copy's `result_list` to a fresh
empty list.  The loop walks a snapshot of the (shared) `param_map` items,
recursively prepares each child and assigns the result back into the
shared dict.  Finally `expr_set - {new_expr}` is scanned for an existing
expression with the same operator callable and an `==`-equal `param_map`
(`Expression` has no `__eq__`, so dict values compare by identity, i.e. by
reference); on a hit the replacement is returned, otherwise the copy is
registered.  Returns (heap, returned reference, updated `expr_set`). -/
def prepareExec : Nat → PHeap → Nat → List Nat → PHeap × Nat × List Nat
  | 0, h, selfRef, exprSet => (h, selfRef, exprSet)
  | Nat.succ fuel, h, selfRef, exprSet =>
    let self := getPExpr h selfRef
    let newRef := h.exprs.length
    let newListRef := h.lists.length
    let h := { h with
      lists := h.lists ++ [[]],
      exprs := h.exprs ++ [{ self with resultListRef := newListRef }] }
    let items := getDict h self.paramMapRef
    let step := fun (acc : PHeap × List Nat) (kv : String × Nat) =>
      let (h, exprSet) := acc
      let (h, childRef, exprSet) := prepareExec fuel h kv.2 exprSet
      let pmRef := (getPExpr h newRef).paramMapRef
      ({ h with dicts := h.dicts.set pmRef (dictSet (getDict h pmRef) kv.1 childRef) },
       exprSet)
    let (h, exprSet) := items.foldl step (h, exprSet)
    match exprSet.find? (fun r =>
        r != newRef &&
        (getPExpr h r).opCallable == (getPExpr h newRef).opCallable &&
        getDict h (getPExpr h r).paramMapRef ==
          getDict h (getPExpr h newRef).paramMapRef) with
    | some r => (h, r, exprSet)
    | none => (h, newRef, exprSet ++ [newRef])

/-- `Expression.get_executor_map` (engine.py lines 1105..1119): prepare
every wrapped Expression against one shared deduplication pool, returning
the heap and the references the wrappers now point to. -/
def getExecutorMap (fuel : Nat) (h : PHeap) (refs : List Nat) :
    PHeap × List Nat :=
  let step := fun (acc : PHeap × List Nat × List Nat) (r : Nat) =>
    let (h, exprSet, out) := acc
    let (h, r', exprSet) := prepareExec fuel h r exprSet
    (h, exprSet, out ++ [r'])
  let (h, _, out) := refs.foldl step (h, [], [])
  (h, out)

/-- The mutable state of one `ExprValueSeq` during re-entrant iteration
(`ExprValueSeq.iter_expr_val`, engine.py lines 1678..1715): the entries of
`value_list` (abstracted to tokens), the items the shared `self.iterator`
has not yet produced, and whether `self.iterator` is still set (not
`None`). -/
structure SeqSt where
  valueList : List Nat
  pending : List Nat
  iterAlive : Bool
deriving DecidableEq, Repr

/-- The control point of one in-progress `iter_expr_val` generator:
iterating `value_list` by live index (`yield from yielder(self.value_list,
True)`); about to pull from `self.iterator` (top of the `for` loop); just
after `yield expr_val` with the recorded `value_list_len`; replaying the
catch-up snapshot `self.value_list[value_list_len:]`; or finished. -/
inductive IterPhase where
  | phase1 (i : Nat)
  | mainLoop
  | afterYield (n : Nat)
  | catchup (snap : List Nat) (k : Nat)
  | done
deriving DecidableEq, Repr

structure IterCfg where
  seq : SeqSt
  phase : IterPhase
deriving DecidableEq, Repr

/-- Effect, on the shared sequence, of nested consumption performed while
the outer iterator is suspended at a yield: a nested `iter_expr_val` call
re-yields the existing entries (no state change) and then pulls `j` times
from the shared iterator, appending each produced entry to `value_list`;
pulling past the end terminates the nested `for` loop, which sets
`self.iterator = None`. -/
def envStep (s : SeqSt) (j : Nat) : SeqSt :=
  if j == 0 then s
  else
    { valueList := s.valueList ++ s.pending.take j,
      pending := s.pending.drop j,
      iterAlive := s.iterAlive && !(decide (s.pending.length < j)) }

/-- One step of the outer `iter_expr_val` generator; returns the yielded
entry, if this step yields. -/
def iterStep (c : IterCfg) : Option Nat × IterCfg :=
  match c.phase with
  | .phase1 i =>
    if h : i < c.seq.valueList.length then
      (some (c.seq.valueList.get ⟨i, h⟩), { c with phase := .phase1 (i + 1) })
    else
      (none, { c with phase := if c.seq.iterAlive then .mainLoop else .done })
  | .mainLoop =>
    match c.seq.pending with
    | [] => (none, { seq := { c.seq with iterAlive := false }, phase := .done })
    | x :: rest =>
      let vl := c.seq.valueList ++ [x]
      (some x,
       { seq := { c.seq with valueList := vl, pending := rest },
         phase := .afterYield vl.length })
  | .afterYield n =>
    if c.seq.valueList.length != n then
      (none, { c with phase := .catchup (c.seq.valueList.drop n) 0 })
    else
      (none, { c with phase := .mainLoop })
  | .catchup snap k =>
    if h : k < snap.length then
      (some (snap.get ⟨k, h⟩), { c with phase := .catchup snap (k + 1) })
    else
      (none, { c with phase := .mainLoop })
  | .done => (none, c)

/-- Drive the outer iterator to completion: after each yield the environment
performs the nested consumption prescribed by the next schedule entry
(`0` = the consumer does not touch the sequence).  Returns the entries
yielded to the outer iterator and the final configuration. -/
def runIter : Nat → IterCfg → List Nat → List Nat × IterCfg
  | 0, c, _ => ([], c)
  | Nat.succ fuel, c, sched =>
    match c.phase with
    | .done => ([], c)
    | _ =>
      match iterStep c with
      | (none, c') => runIter fuel c' sched
      | (some v, c') =>
        let next :=
          match sched with
          | j :: rest => ({ c' with seq := envStep c'.seq j }, rest)
          | [] => (c', ([] : List Nat))
        let (out, cf) := runIter fuel next.1 next.2
        (v :: out, cf)

/-- The initial state of the C3 scenario: a sequence holding one
already-produced entry (`5`), with three more items (`10`, `20`, `30`)
still to be produced by the shared iterator. -/
def c3Start : IterCfg :=
  { seq := { valueList := [5], pending := [10, 20, 30], iterAlive := true },
    phase := .phase1 0 }

/-- C3: the claim states that iterating an `ExprValueSeq` while nested
consumption appends further entries yields all entries exactly once, in
append order, to the original iterator.  This fails: after the outer
iterator pulls `10` a nested call appends `20`, the outer catch-up replays
the snapshot slice `value_list[value_list_len:] = [20]`, and while it is
suspended inside that replay another nested call appends `30`; the
snapshot does not grow and the main loop never re-checks the length, so
`30` — although present in the final `value_list` — is never yielded to
the original iterator. -/
theorem c3_reentrant_iteration_catchup_append_lost :
    (runIter 20 c3Start [0, 1, 2]).1 = [5, 10, 20] ∧
    (runIter 20 c3Start [0, 1, 2]).2.seq.valueList = [5, 10, 20, 30] ∧
    30 ∈ (runIter 20 c3Start [0, 1, 2]).2.seq.valueList ∧
    30 ∉ (runIter 20 c3Start [0, 1, 2]).1 := by
  decide

/-- The initial heap of the C6 scenario: expression `A` (reference 0, no
parameters, operator callable 100, `result_list` token `7`) and expression
`B` (reference 1, `param_map = {x: A}`, operator callable 200,
`result_list` token `8`). -/
def c6Heap : PHeap :=
  { exprs := [⟨100, 0, 0⟩, ⟨200, 1, 1⟩],
    dicts := [[], [("x", 0)]],
    lists := [[7], [8]] }

/-- C6: the claim states that batch deduplication operates on a copy and
never mutates the original Expressions, their `param_map` in particular.
This fails: `copy.copy` shares the `param_map` dict between the copy and
the original, so when `get_executor_map` prepares `B(x=A)`, the loop
assignment `new_expr.param_map[param] = param_expr._prepare_exec(...)`
rewrites the original `B`'s `param_map` entry from the original `A`
(reference 0) to the prepared copy (reference 3).  The original
`result_list` is indeed untouched (`discard_result` rebinds the copy's
attribute instead of mutating the list). -/
theorem c6_prepare_exec_mutates_original_param_map :
    (getExecutorMap 5 c6Heap [1]).1.dicts.getD 1 [] = [("x", 3)] ∧
    c6Heap.dicts.getD 1 [] = [("x", 0)] ∧
    ((getExecutorMap 5 c6Heap [1]).1.dicts.getD 1 [] ≠ c6Heap.dicts.getD 1 []) ∧
    (getPExpr (getExecutorMap 5 c6Heap [1]).1 1).resultListRef =
      (getPExpr c6Heap 1).resultListRef ∧
    (getExecutorMap 5 c6Heap [1]).1.lists.getD 1 [] = c6Heap.lists.getD 1 [] := by
  decide

/-- The values of the pairs built by `genValuePairs` are the generator's
yields, verbatim, each with a fresh uuid and a `NoValue` exception half. -/
theorem genValuePairs_values (vals : List PyVal) (ctr : Nat) :
    (genValuePairs vals ctr).map (fun p => p.1.1) = vals ∧
    (genValuePairs vals ctr).length = vals.length := by
  induction vals generalizing ctr with
  | nil => simp [genValuePairs]
  | cons v rest ih =>
    simp only [genValuePairs, List.map_cons, List.length_cons]
    exact ⟨by rw [(ih (ctr + 1)).1], by rw [(ih (ctr + 1)).2]⟩

/-- C5: `Operator.generator_wrapper` shapes.  A single-valued operator
yields exactly one pair — the produced value with `NoValue` as exception on
success, or `NoValue` as value with the captured exception on failure.  A
generator operator has its pairs yielded verbatim, an exception raised
during iteration is appended as a final exception pair instead of being
propagated, and a generator that yields nothing still surfaces exactly one
pair whose value (and exception) is `NoValue`. -/
theorem c5_generator_wrapper_shapes :
    (∀ (f : List (String × PyVal) → Except Nat PyVal) args ctr v,
      f args = .ok v →
      generatorWrapper (.single f) args ctr =
        ([((v, some ctr), (PyVal.noValue, none))], ctr + 1)) ∧
    (∀ (f : List (String × PyVal) → Except Nat PyVal) args ctr e,
      f args = .error e →
      generatorWrapper (.single f) args ctr =
        ([((PyVal.noValue, none), (PyVal.obj e, some ctr))], ctr + 1)) ∧
    (∀ (g : List (String × PyVal) → List PyVal × Option Nat) args ctr vals,
      g args = (vals, none) → vals ≠ [] →
      generatorWrapper (.gen g) args ctr =
        (genValuePairs vals ctr, ctr + vals.length) ∧
      (genValuePairs vals ctr).map (fun p => p.1.1) = vals) ∧
    (∀ (g : List (String × PyVal) → List PyVal × Option Nat) args ctr vals e,
      g args = (vals, some e) →
      generatorWrapper (.gen g) args ctr =
        (genValuePairs vals ctr ++
          [((PyVal.noValue, none), (PyVal.obj e, some (ctr + vals.length)))],
         ctr + vals.length + 1)) ∧
    (∀ (g : List (String × PyVal) → List PyVal × Option Nat) args ctr,
      g args = ([], none) →
      generatorWrapper (.gen g) args ctr =
        ([((PyVal.noValue, none), (PyVal.noValue, none))], ctr)) := by
  refine ⟨?_, ?_, ?_, ?_, ?_⟩
  · intro f args ctr v h
    simp [generatorWrapper, h]
  · intro f args ctr e h
    simp [generatorWrapper, h]
  · intro g args ctr vals h hne
    refine ⟨?_, (genValuePairs_values vals ctr).1⟩
    simp [generatorWrapper, h, hne]
  · intro g args ctr vals e h
    simp [generatorWrapper, h]
  · intro g args ctr h
    simp [generatorWrapper, h]

/-- Witness for C5 at concrete operators: a succeeding single-valued
callable, a failing single-valued callable, a two-valued generator, a
generator raising after one yield, and an empty generator. -/
theorem c5_generator_wrapper_shapes_witness :
    generatorWrapper (.single (fun _ => .ok (PyVal.obj 5))) [] 0 =
      ([((PyVal.obj 5, some 0), (PyVal.noValue, none))], 1) ∧
    generatorWrapper (.single (fun _ => .error 9)) [] 0 =
      ([((PyVal.noValue, none), (PyVal.obj 9, some 0))], 1) ∧
    generatorWrapper (.gen (fun _ => ([PyVal.obj 1, PyVal.obj 2], none))) [] 4 =
      (genValuePairs [PyVal.obj 1, PyVal.obj 2] 4, 6) ∧
    generatorWrapper (.gen (fun _ => ([PyVal.obj 1], some 9))) [] 0 =
      (genValuePairs [PyVal.obj 1] 0 ++
        [((PyVal.noValue, none), (PyVal.obj 9, some 1))], 2) ∧
    generatorWrapper (.gen (fun _ => ([], none))) [] 3 =
      ([((PyVal.noValue, none), (PyVal.noValue, none))], 3) := by
  refine ⟨?_, ?_, ?_, ?_, ?_⟩
  · exact c5_generator_wrapper_shapes.1 _ [] 0 _ rfl
  · exact c5_generator_wrapper_shapes.2.1 _ [] 0 _ rfl
  · exact (c5_generator_wrapper_shapes.2.2.1 _ [] 4 _ rfl (by decide)).1
  · exact c5_generator_wrapper_shapes.2.2.2.1 _ [] 0 _ 9 rfl
  · exact c5_generator_wrapper_shapes.2.2.2.2 _ [] 3 rfl

/-- Two `ExprValue`s agree on every reusable sub-expression reachable from
both: the property enforced by the diamond-consistency rule. -/
def sharedReusableAgree (ru : Nat → Bool) (a b : EV) : Prop :=
  ∀ e, ru e = true → a.hasExpr e = true → b.hasExpr e = true →
    optEvId (a.exprMapGet e) = optEvId (b.exprMapGet e)

theorem sharedReusableAgree_refl (ru : Nat → Bool) (a : EV) :
    sharedReusableAgree ru a a := by
  intro e _ _ _
  rfl

theorem sharedReusableAgree_symm {ru : Nat → Bool} {a b : EV}
    (h : sharedReusableAgree ru a b) : sharedReusableAgree ru b a := by
  intro e hru hb ha
  exact (h e hru ha hb).symm

/-- A successful `evCompat` check gives agreement on every reusable
expression reachable from both values. -/
theorem evCompat_agree {ru : Nat → Bool} {ref ev : EV}
    (h : evCompat ru ref ev = true) : sharedReusableAgree ru ref ev := by
  intro e hru href hev
  rcases List.any_eq_true.mp hev with ⟨x, hx, hxe⟩
  have hxeq : x.exprId = e := by simpa using hxe
  have hall := List.all_eq_true.mp h x hx
  rw [hxeq, href, hru] at hall
  simpa using hall

/-- A successful `validate_expr_val_list` check makes the head compatible
with every later element (the Python loop checks exactly those pairs
directly). -/
theorem validate_head_compat {ru : Nat → Bool} {ref : EV} {rest : List EV}
    (h : validateExprValList ru (ref :: rest) = true) :
    ∀ ev ∈ rest, evCompat ru ref ev = true := by
  match rest with
  | [] => intro ev hev; cases hev
  | b :: r =>
    intro ev hev
    rw [validateExprValList] at h
    have := List.all_eq_true.mp h ev hev
    exact (Bool.and_eq_true _ _ |>.mp this).1

theorem mem_foldr_append {α β : Type} (f : α → List β) (g : List α) (x : β) :
    x ∈ g.foldr (fun a acc => f a ++ acc) [] ↔ ∃ a ∈ g, x ∈ f a := by
  induction g with
  | nil => simp
  | cons y ys ih => simp [ih]

/-- Every combination yielded by `expr_val_product` is pairwise consistent
on shared reusable sub-expressions: the head is validated against every
later element by `validate_expr_val_list`, and the tail was itself yielded
(and hence validated) by the recursive product. -/
theorem exprValProduct_pairwise (ru : Nat → Bool) (gens : List (List EV)) :
    ∀ l ∈ exprValProduct ru gens, ∀ a ∈ l, ∀ b ∈ l,
      sharedReusableAgree ru a b := by
  induction gens with
  | nil =>
    intro l hl
    simp [exprValProduct] at hl
  | cons g gs ih =>
    intro l hl a ha b hb
    match gs with
    | [] =>
      rw [exprValProduct] at hl
      rcases List.mem_filterMap.mp hl with ⟨ev, _, hev⟩
      by_cases hv : validateExprValList ru [ev] = true
      · rw [if_pos hv] at hev
        cases hev
        rw [List.mem_singleton.mp ha, List.mem_singleton.mp hb]
        exact sharedReusableAgree_refl ru ev
      · rw [if_neg hv] at hev
        cases hev
    | g2 :: gs' =>
      rw [exprValProduct] at hl
      rcases (mem_foldr_append _ g l).mp hl with ⟨ev, _, hbr⟩
      by_cases hnv : (ev.value == PyVal.noValue) = true
      · rw [if_pos hnv] at hbr
        cases List.mem_singleton.mp hbr
        rw [List.mem_singleton.mp ha, List.mem_singleton.mp hb]
        exact sharedReusableAgree_refl ru ev
      · rw [if_neg hnv] at hbr
        rcases List.mem_filterMap.mp hbr with ⟨sub, hsub, hval⟩
        by_cases hv : validateExprValList ru (ev :: sub) = true
        · rw [if_pos hv] at hval
          cases hval
          have hpair := validate_head_compat hv
          have hsubpw := ih sub hsub
          rcases List.mem_cons.mp ha with ha' | ha'
          · rcases List.mem_cons.mp hb with hb' | hb'
            · rw [ha', hb']
              exact sharedReusableAgree_refl ru ev
            · rw [ha']
              exact evCompat_agree (hpair b hb')
          · rcases List.mem_cons.mp hb with hb' | hb'
            · rw [hb']
              exact sharedReusableAgree_symm (evCompat_agree (hpair a ha'))
            · exact hsubpw a ha' b hb'
        · rw [if_neg hv] at hval
          cases hval

/-- C2: every combination of reusable parameter values yielded by
`ExprValue.expr_val_product` resolves each reusable sub-expression that is
reachable from two of the combined values to the identical `ExprValue`
object on both paths (object identity modelled by `evId`); equivalently, a
candidate combination in which a shared reusable ancestor contributed two
different values is never yielded.  Non-reusable sub-expressions
(`ru e = false`) are exempt. -/
theorem c2_diamond_consistency (ru : Nat → Bool) (gens : List (List EV))
    (l : List EV) (hl : l ∈ exprValProduct ru gens)
    (a : EV) (ha : a ∈ l) (b : EV) (hb : b ∈ l) (e : Nat)
    (hru : ru e = true) (hae : a.hasExpr e = true) (hbe : b.hasExpr e = true) :
    optEvId (a.exprMapGet e) = optEvId (b.exprMapGet e) :=
  exprValProduct_pairwise ru gens l hl a ha b hb e hru hae hbe

/-- The shared reusable ancestor of the C2 witness: an `ExprValue` of
expression 0. -/
def c2Anc : EV := .mk 100 0 (.obj 1) (some 0) .noValue none .nil

/-- C2 witness values: two parameter values (of expressions 1 and 2) that
both consumed `c2Anc` for their parameter `a`. -/
def c2P1 : EV :=
  .mk 101 1 (.obj 2) (some 1) .noValue none (.cons "a" c2Anc .nil)

def c2P2 : EV :=
  .mk 102 2 (.obj 3) (some 2) .noValue none (.cons "a" c2Anc .nil)

/-- Witness for C2: the product of the two one-value generators yields the
combination `[c2P1, c2P2]`, and the claim instantiated there gives
agreement on the shared reusable ancestor expression 0. -/
theorem c2_diamond_consistency_witness :
    [c2P1, c2P2] ∈ exprValProduct (fun _ => true) [[c2P1], [c2P2]] ∧
    optEvId (c2P1.exprMapGet 0) = optEvId (c2P2.exprMapGet 0) := by
  refine ⟨by decide, ?_⟩
  exact c2_diamond_consistency (fun _ => true) [[c2P1], [c2P2]]
    [c2P1, c2P2] (by decide) c2P1 (by decide) c2P2 (by decide) 0 rfl
    (by decide) (by decide)

theorem mkEVs_snd (e : Nat) (binding : List (String × EV))
    (pairs : List EVPair) (ctr : Nat) :
    (mkEVs e binding pairs ctr).2 = ctr + pairs.length := by
  induction pairs generalizing ctr with
  | nil => simp [mkEVs]
  | cons p rest ih =>
    obtain ⟨⟨v, vu⟩, ⟨x, xu⟩⟩ := p
    simp only [mkEVs, List.length_cons, ih (ctr + 1)]
    omega

theorem mkEVs_length (e : Nat) (binding : List (String × EV))
    (pairs : List EVPair) (ctr : Nat) :
    (mkEVs e binding pairs ctr).1.length = pairs.length := by
  induction pairs generalizing ctr with
  | nil => simp [mkEVs]
  | cons p rest ih =>
    obtain ⟨⟨v, vu⟩, ⟨x, xu⟩⟩ := p
    simp [mkEVs, ih (ctr + 1)]

theorem mkEVs_evId_bounds (e : Nat) (binding : List (String × EV))
    (pairs : List EVPair) (ctr : Nat) :
    ∀ ev ∈ (mkEVs e binding pairs ctr).1,
      ctr ≤ ev.evId ∧ ev.evId < ctr + pairs.length := by
  induction pairs generalizing ctr with
  | nil => simp [mkEVs]
  | cons p rest ih =>
    obtain ⟨⟨v, vu⟩, ⟨x, xu⟩⟩ := p
    intro ev hev
    simp only [mkEVs, List.mem_cons] at hev
    rcases hev with rfl | hev
    · simp [EV.evId]
    · have := ih (ctr + 1) ev hev
      simp only [List.length_cons]
      omega

theorem generatorWrapper_ne_nil (impl : OpImpl) (args : List (String × PyVal))
    (ctr : Nat) : (generatorWrapper impl args ctr).1 ≠ [] := by
  cases impl with
  | single f =>
    cases h : f args <;> simp [generatorWrapper, h]
  | gen g =>
    rcases hg : g args with ⟨vals, raised⟩
    cases raised with
    | none =>
      cases vals with
      | nil => simp [generatorWrapper, hg]
      | cons v rest => simp [generatorWrapper, hg, genValuePairs]
    | some e => simp [generatorWrapper, hg]

theorem generatorWrapper_ctr_le (impl : OpImpl) (args : List (String × PyVal))
    (ctr : Nat) : ctr ≤ (generatorWrapper impl args ctr).2 := by
  cases impl with
  | single f =>
    cases h : f args <;> simp [generatorWrapper, h]
  | gen g =>
    rcases hg : g args with ⟨vals, raised⟩
    cases raised with
    | none =>
      cases vals with
      | nil => simp [generatorWrapper, hg]
      | cons v rest => simp [generatorWrapper, hg]
    | some e => simp [generatorWrapper, hg]; omega

theorem itemsSubset_refl (l : List (String × PyVal)) : itemsSubset l l = true := by
  rw [itemsSubset, List.all_eq_true]
  intro kv hkv
  exact List.elem_iff.mpr hkv

/-- The unresolved `ExprValue` recorded by the short-circuit branch of
`Expression._execute` (engine.py line 1234): both `value` and `excep` are
left at their `NoValue` defaults. -/
def shortCircuitEV (s : EState) (e : Nat) (binding : List (String × EV)) : EV :=
  EV.mk s.ctr e .noValue none .noValue none (EVParams.ofList binding)

/-- If a parameter combination is incomplete (some reusable parameter was
never computed) or contains a NoValue, and no sequence was recorded for it
yet, the loop body does not invoke the operator (for any executor, since
the non-reusable parameters are not even computed): it records exactly one
`ExprValue` whose value and exception are `NoValue` and yields it. -/
theorem execOneBindingWith_shortCircuit
    (exec : EState → Nat → List Nat → EState × List EV)
    (s : EState) (e : Nat) (stack : List Nat) (binding : List (String × EV))
    (hfind : findResultList s e binding = [])
    (h : binding.length <
          ((getNode s e).params.filter (fun p => reusableOf s p.2)).length ∨
        anyValueIsNoValue binding = true) :
    execOneBindingWith exec s e stack binding =
      ({ s with ctr := s.ctr + 1,
                results := s.results ++
                  [⟨e, binding, [shortCircuitEV s e binding]⟩] },
       [shortCircuitEV s e binding]) := by
  rcases h with hlt | hnv
  · have hbeq : (binding.length ==
        ((getNode s e).params.filter (fun p => reusableOf s p.2)).length) =
        false := by
      simp only [beq_eq_false_iff_ne, ne_eq]
      omega
    have hne : (binding.length != (getNode s e).params.length) = true := by
      have hle := List.length_filter_le (fun p => reusableOf s p.2)
        (getNode s e).params
      simp only [bne_iff_ne, ne_eq]
      omega
    simp [execOneBindingWith, hfind, hbeq, hne, shortCircuitEV]
  · simp [execOneBindingWith, hfind, hnv, shortCircuitEV]

/-- If all reusable parameters are resolved with actual values, the
expression has no non-reusable parameter, and no sequence was recorded for
this binding yet, the loop body proceeds to the invocation tail. -/
theorem execOneBindingWith_invoke
    (exec : EState → Nat → List Nat → EState × List EV)
    (s : EState) (e : Nat) (stack : List Nat) (binding : List (String × EV))
    (hmiss : (getNode s e).op.reusable = false ∨
      findResultList s e binding = [])
    (hcomp : binding.length =
      ((getNode s e).params.filter (fun p => reusableOf s p.2)).length)
    (hnr : (getNode s e).params.filter (fun p => !(reusableOf s p.2)) = [])
    (hfull : binding.length = (getNode s e).params.length)
    (hnv : anyValueIsNoValue binding = false) :
    execOneBindingWith exec s e stack binding =
      invokeBinding s e stack binding := by
  have hbeq : (binding.length ==
      ((getNode s e).params.filter (fun p => reusableOf s p.2)).length) =
      true := by
    simpa using hcomp
  have hne : (binding.length != (getNode s e).params.length) = false := by
    simpa using hfull
  rcases hmiss with hru | hfind
  · simp [execOneBindingWith, hru, hbeq, hne, hnv, hnr, consumeGenMap]
  · simp [execOneBindingWith, hfind, hbeq, hne, hnv, hnr, consumeGenMap]

/-- If the operator is reusable, the reusable parameters are all resolved
and `find_result_list` returns a recorded sequence, the loop body replays
that sequence (its first entry; the engine asserts there is exactly one)
without touching the state. -/
theorem execOneBindingWith_memoHit
    (exec : EState → Nat → List Nat → EState × List EV)
    (s : EState) (e : Nat) (stack : List Nat) (binding : List (String × EV))
    (hru : (getNode s e).op.reusable = true)
    (hcomp : binding.length =
      ((getNode s e).params.filter (fun p => reusableOf s p.2)).length)
    (q : EVSeq) (rest : List EVSeq)
    (hfind : findResultList s e binding = q :: rest) :
    execOneBindingWith exec s e stack binding = (s, q.valueList) := by
  have hbeq : (binding.length ==
      ((getNode s e).params.filter (fun p => reusableOf s p.2)).length) =
      true := by
    simpa using hcomp
  simp [execOneBindingWith, hru, hbeq, hfind]

/-- What the invocation tail produces, for any expression kind: exactly one
new (non-empty) `ExprValueSeq` for this expression and binding is appended
to the results, its values are yielded, every yielded `ExprValue` is a
fresh object (its identity token is at least the entry counter and below
the exit counter), the arena is untouched, and the operator is logged as
invoked exactly once for a normal operator and not at all for the injected
`Consumer` / `ExprData` operators. -/
theorem invokeBinding_spec (s : EState) (e : Nat) (stack : List Nat)
    (binding : List (String × EV)) :
    ∃ q : EVSeq,
      (invokeBinding s e stack binding).1.results = s.results ++ [q] ∧
      (invokeBinding s e stack binding).2 = q.valueList ∧
      q.exprId = e ∧ q.binding = binding ∧ q.valueList ≠ [] ∧
      (invokeBinding s e stack binding).1.arena = s.arena ∧
      s.ctr ≤ (invokeBinding s e stack binding).1.ctr ∧
      (∀ ev ∈ q.valueList,
        s.ctr ≤ ev.evId ∧ ev.evId < (invokeBinding s e stack binding).1.ctr) ∧
      ((getNode s e).op.kind = .normal →
        (invokeBinding s e stack binding).1.invoked = s.invoked ++ [e]) ∧
      ((getNode s e).op.kind ≠ .normal →
        (invokeBinding s e stack binding).1.invoked = s.invoked) := by
  cases hk : (getNode s e).op.kind with
  | consumer =>
    refine ⟨⟨e, binding,
      [EV.mk s.ctr e (consumerValue s stack) none .noValue none
        (EVParams.ofList binding)]⟩, ?_⟩
    simp [invokeBinding, hk, mkEVs, EV.evId]
  | exprData =>
    refine ⟨⟨e, binding,
      [EV.mk s.ctr e (PyVal.obj (getNode s (stack.headD 0)).data)
        (some (getNode s (stack.headD 0)).dataUuid) .noValue none
        (EVParams.ofList binding)]⟩, ?_⟩
    simp [invokeBinding, hk, mkEVs, EV.evId]
  | normal =>
    rcases hgw : generatorWrapper (getNode s e).op.impl (bindingValues binding)
        s.ctr with ⟨pairs, ctr2⟩
    have hnn : pairs ≠ [] := by
      have := generatorWrapper_ne_nil (getNode s e).op.impl
        (bindingValues binding) s.ctr
      rw [hgw] at this
      exact this
    have hctr2 : s.ctr ≤ ctr2 := by
      have := generatorWrapper_ctr_le (getNode s e).op.impl
        (bindingValues binding) s.ctr
      rw [hgw] at this
      exact this
    refine ⟨⟨e, binding, (mkEVs e binding pairs ctr2).1⟩, ?_, ?_, rfl, rfl,
      ?_, ?_, ?_, ?_, ?_, ?_⟩
    · simp [invokeBinding, hk, hgw]
    · simp [invokeBinding, hk, hgw]
    · intro hcontr
      simp only [] at hcontr
      have hlen := mkEVs_length e binding pairs ctr2
      rw [hcontr] at hlen
      exact hnn (List.length_eq_zero.mp hlen.symm)
    · simp [invokeBinding, hk, hgw]
    · have := mkEVs_snd e binding pairs ctr2
      simp only [invokeBinding, hk, hgw]
      simp [this]
      omega
    · intro ev hev
      have hb := mkEVs_evId_bounds e binding pairs ctr2 ev hev
      have hsnd := mkEVs_snd e binding pairs ctr2
      simp only [invokeBinding, hk, hgw]
      simp [hsnd]
      omega
    · intro _
      simp [invokeBinding, hk, hgw]
    · intro hcontr
      exact absurd rfl hcontr

/-- C4: failure handling during execution.  (1) If some parameter of an
Expression could not be resolved at all (the combination is shorter than
the reusable parameter map) or resolved to `NoValue`, and nothing was
recorded for this binding yet, the operator is never invoked and exactly
one `ExprValue` whose value (and exception) is `NoValue` is produced and
recorded for that binding.  (2) An exception raised inside a (single
valued) operator invocation is not propagated: the loop body returns
normally with exactly one `ExprValue` whose `excep` field holds the
captured exception and whose `value` is `NoValue` (the invocation is
logged, the sequence recorded).  (3) Sibling paths are unaffected: the
binding loop processes the remaining combinations regardless of what the
current one produced. -/
theorem c4_invocation_failure_handling :
    (∀ (fuel : Nat) (s : EState) (e : Nat) (stack : List Nat)
        (binding : List (String × EV)),
      findResultList s e binding = [] →
      (binding.length <
          ((getNode s e).params.filter (fun p => reusableOf s p.2)).length ∨
        anyValueIsNoValue binding = true) →
      execOneBinding fuel s e stack binding =
        ({ s with ctr := s.ctr + 1,
                  results := s.results ++
                    [⟨e, binding, [shortCircuitEV s e binding]⟩] },
         [shortCircuitEV s e binding]) ∧
      (execOneBinding fuel s e stack binding).1.invoked = s.invoked ∧
      (shortCircuitEV s e binding).value = PyVal.noValue) ∧
    (∀ (fuel : Nat) (s : EState) (e : Nat) (stack : List Nat)
        (binding : List (String × EV))
        (f : List (String × PyVal) → Except Nat PyVal) (exc : Nat),
      ((getNode s e).op.reusable = false ∨ findResultList s e binding = []) →
      binding.length =
        ((getNode s e).params.filter (fun p => reusableOf s p.2)).length →
      (getNode s e).params.filter (fun p => !(reusableOf s p.2)) = [] →
      binding.length = (getNode s e).params.length →
      anyValueIsNoValue binding = false →
      (getNode s e).op.kind = .normal →
      (getNode s e).op.impl = .single f →
      f (bindingValues binding) = .error exc →
      execOneBinding fuel s e stack binding =
        ({ s with ctr := s.ctr + 1 + 1, invoked := s.invoked ++ [e],
                  results := s.results ++ [⟨e, binding,
                    [EV.mk (s.ctr + 1) e .noValue none (.obj exc) (some s.ctr)
                      (EVParams.ofList binding)]⟩] },
         [EV.mk (s.ctr + 1) e .noValue none (.obj exc) (some s.ctr)
           (EVParams.ofList binding)])) ∧
    (∀ (fuel : Nat) (s : EState) (e : Nat) (stack : List Nat)
        (b : List (String × EV)) (bs : List (List (String × EV))),
      execBindingsWith (execExpr fuel) s e stack (b :: bs) =
        ((execBindingsWith (execExpr fuel)
            (execOneBinding fuel s e stack b).1 e stack bs).1,
         (execOneBinding fuel s e stack b).2 ++
           (execBindingsWith (execExpr fuel)
             (execOneBinding fuel s e stack b).1 e stack bs).2)) := by
  refine ⟨?_, ?_, ?_⟩
  · intro fuel s e stack binding hfind h
    have heq2 : execOneBinding fuel s e stack binding =
        ({ s with ctr := s.ctr + 1,
                  results := s.results ++
                    [⟨e, binding, [shortCircuitEV s e binding]⟩] },
         [shortCircuitEV s e binding]) :=
      execOneBindingWith_shortCircuit (execExpr fuel) s e stack binding hfind h
    refine ⟨heq2, ?_, rfl⟩
    rw [heq2]
  · intro fuel s e stack binding f exc hmiss hcomp hnr hfull hnv hk himp herr
    have heq2 : execOneBinding fuel s e stack binding =
        invokeBinding s e stack binding :=
      execOneBindingWith_invoke (execExpr fuel) s e stack binding
        hmiss hcomp hnr hfull hnv
    rw [heq2]
    simp [invokeBinding, hk, himp, generatorWrapper, herr, mkEVs]
  · intro fuel s e stack b bs
    rfl

/-- The C4/C10 witness arena: expression 0 is a parameterless operator
whose callable raises exception `7`; expression 1 consumes it through its
parameter `x`. -/
def c4State : EState :=
  { arena :=
      [{ op := { callableId := 10, reusable := true, kind := .normal,
                 impl := .single (fun _ => .error 7) },
         params := [], data := 0, dataUuid := 0 },
       { op := { callableId := 11, reusable := true, kind := .normal,
                 impl := .single (fun _ => .ok (.obj 1)) },
         params := [("x", 0)], data := 0, dataUuid := 0 }],
    results := [], ctr := 0, invoked := [] }

/-- Witness for C4: the three parts instantiated in `c4State` — the
consumer (expression 1) short-circuits on an unresolved binding without
invoking its operator; the raising operator (expression 0) has its
exception captured in the produced `ExprValue`; and the binding loop
continues past a processed combination. -/
theorem c4_invocation_failure_handling_witness :
    (execOneBinding 0 c4State 1 [] [] =
      ({ c4State with
          ctr := c4State.ctr + 1,
          results := c4State.results ++
            [⟨1, [], [shortCircuitEV c4State 1 []]⟩] },
       [shortCircuitEV c4State 1 []]) ∧
     (execOneBinding 0 c4State 1 [] []).1.invoked = c4State.invoked ∧
     (shortCircuitEV c4State 1 []).value = PyVal.noValue) ∧
    (execOneBinding 0 c4State 0 [] [] =
      ({ c4State with
          ctr := c4State.ctr + 1 + 1,
          invoked := c4State.invoked ++ [0],
          results := c4State.results ++ [⟨0, [],
            [EV.mk (c4State.ctr + 1) 0 .noValue none (.obj 7)
              (some c4State.ctr) (EVParams.ofList [])]⟩] },
       [EV.mk (c4State.ctr + 1) 0 .noValue none (.obj 7) (some c4State.ctr)
         (EVParams.ofList [])])) ∧
    (execBindingsWith (execExpr 0) c4State 0 [] [[]] =
      ((execBindingsWith (execExpr 0)
          (execOneBinding 0 c4State 0 [] []).1 0 [] []).1,
       (execOneBinding 0 c4State 0 [] []).2 ++
         (execBindingsWith (execExpr 0)
           (execOneBinding 0 c4State 0 [] []).1 0 [] []).2)) := by
  refine ⟨?_, ?_, ?_⟩
  · exact c4_invocation_failure_handling.1 0 c4State 1 [] [] rfl
      (Or.inl (by decide))
  · exact c4_invocation_failure_handling.2.1 0 c4State 0 [] []
      (fun _ => .error 7) 7 (Or.inr rfl) rfl rfl rfl rfl rfl rfl rfl
  · exact c4_invocation_failure_handling.2.2 0 c4State 0 [] [] []

/-- C10: for an Expression whose operator takes no parameters, each
`execute()` call evaluates exactly one parameter binding — the empty one
(`consume_gen_map` applied to an empty parameter map yields exactly one
empty mapping) — so the whole execution reduces to the loop body applied
to the empty binding, which either replays the memoized sequence for that
binding (reusable operator with a recorded result) or produces the
operator's value sequence, recording exactly one new non-empty
`ExprValueSeq`; in particular it is never produced zero times. -/
theorem c10_no_param_exactly_one_binding (fuel : Nat) (s : EState) (e : Nat)
    (stack : List Nat) (hnp : (getNode s e).params = []) :
    consumeGenMap (exprValProduct (reusableOf s)) [] = [[]] ∧
    execExpr (fuel + 1) s e stack = execOneBinding fuel s e stack [] ∧
    ((getNode s e).op.reusable = true → findResultList s e [] ≠ [] →
      execExpr (fuel + 1) s e stack =
        (s, ((findResultList s e []).headD dummySeq).valueList)) ∧
    (((getNode s e).op.reusable = false ∨ findResultList s e [] = []) →
      ∃ q : EVSeq,
        (execExpr (fuel + 1) s e stack).1.results = s.results ++ [q] ∧
        q.exprId = e ∧
        (execExpr (fuel + 1) s e stack).2 = q.valueList ∧
        q.valueList ≠ []) := by
  have hmain : execExpr (fuel + 1) s e stack = execOneBinding fuel s e stack [] := by
    simp [execExpr, hnp, consumeGenMap, execBindingsWith, execOneBinding]
  refine ⟨rfl, hmain, ?_, ?_⟩
  · intro hru hne
    rw [hmain]
    have hie : (findResultList s e []).isEmpty = false := by
      cases hfl : findResultList s e [] with
      | nil => exact absurd hfl hne
      | cons q rest => rfl
    show execOneBindingWith (execExpr fuel) s e stack [] = _
    simp [execOneBindingWith, hie, hru, hnp]
  · intro hmiss
    rw [hmain]
    have heq2 : execOneBinding fuel s e stack [] =
        invokeBinding s e stack [] :=
      execOneBindingWith_invoke (execExpr fuel) s e stack [] hmiss
        (by simp [hnp]) (by simp [hnp]) (by simp [hnp]) rfl
    rw [heq2]
    rcases invokeBinding_spec s e stack [] with
      ⟨q, hres, hout, hqe, _, hqnn, _, _, _, _, _⟩
    exact ⟨q, hres, hqe, hout, hqnn⟩

/-- Witness for C10 in `c4State`: expression 0 takes no parameters; one
execution evaluates exactly the empty binding and records exactly one new
sequence. -/
theorem c10_no_param_exactly_one_binding_witness :
    (getNode c4State 0).params = [] ∧
    execExpr 1 c4State 0 [] = execOneBinding 0 c4State 0 [] [] ∧
    (∃ q : EVSeq,
      (execExpr 1 c4State 0 []).1.results = c4State.results ++ [q] ∧
      q.exprId = 0 ∧
      (execExpr 1 c4State 0 []).2 = q.valueList ∧
      q.valueList ≠ []) := by
  refine ⟨rfl, ?_, ?_⟩
  · exact (c10_no_param_exactly_one_binding 0 c4State 0 [] rfl).2.1
  · exact (c10_no_param_exactly_one_binding 0 c4State 0 [] rfl).2.2.2
      (Or.inr rfl)

/-- Appending a matching sequence for `e` to the results extends the
`find_result_list` answer by exactly that sequence. -/
theorem findResultList_append (s s' : EState) (e : Nat)
    (b : List (String × EV)) (q : EVSeq)
    (hres : s'.results = s.results ++ [q]) (hqe : q.exprId = e)
    (hsub : itemsSubset (bindingValues b) (bindingValues q.binding) = true) :
    findResultList s' e b = findResultList s e b ++ [q] := by
  simp [findResultList, resultsOf, hres, List.filter_append, hqe, hsub]

/-- C1: reuse versus freshness, for an Expression all of whose parameters
are reusable and whose binding is fully resolved to actual values, starting
from a state with no recorded sequence for that binding.  If the operator
is reusable, a second execution of the loop body for the identical binding
replays exactly the `ExprValue` objects of the first (same list, hence the
same identity tokens), changes nothing in the state, and the operator has
been invoked exactly once for that binding across both runs.  If the
operator is not reusable, the second run re-invokes the operator and its
values are fresh objects, with identity tokens disjoint from the first
run's. -/
theorem c1_reuse_vs_freshness (fuel : Nat) (s : EState) (e : Nat)
    (stack : List Nat) (binding : List (String × EV))
    (hall : ∀ p ∈ (getNode s e).params, reusableOf s p.2 = true)
    (hfull : binding.length = (getNode s e).params.length)
    (hnv : anyValueIsNoValue binding = false)
    (hnew : findResultList s e binding = []) :
    ((getNode s e).op.reusable = true →
      execOneBinding fuel (execOneBinding fuel s e stack binding).1 e stack
          binding =
        ((execOneBinding fuel s e stack binding).1,
         (execOneBinding fuel s e stack binding).2) ∧
      ((getNode s e).op.kind = .normal →
        (execOneBinding fuel (execOneBinding fuel s e stack binding).1 e
            stack binding).1.invoked = s.invoked ++ [e])) ∧
    ((getNode s e).op.reusable = false →
      ((getNode s e).op.kind = .normal →
        (execOneBinding fuel (execOneBinding fuel s e stack binding).1 e
            stack binding).1.invoked = s.invoked ++ [e] ++ [e]) ∧
      (∀ x ∈ (execOneBinding fuel s e stack binding).2,
       ∀ y ∈ (execOneBinding fuel (execOneBinding fuel s e stack binding).1
           e stack binding).2,
        x.evId ≠ y.evId)) := by
  have hfilter : (getNode s e).params.filter (fun p => reusableOf s p.2) =
      (getNode s e).params :=
    List.filter_eq_self.mpr hall
  have hcomp : binding.length =
      ((getNode s e).params.filter (fun p => reusableOf s p.2)).length := by
    rw [hfilter]; exact hfull
  have hnr : (getNode s e).params.filter (fun p => !(reusableOf s p.2)) =
      [] := by
    rw [List.filter_eq_nil_iff]
    intro p hp
    simp [hall p hp]
  have heq1 : execOneBinding fuel s e stack binding =
      invokeBinding s e stack binding :=
    execOneBindingWith_invoke (execExpr fuel) s e stack binding
      (Or.inr hnew) hcomp hnr hfull hnv
  rcases invokeBinding_spec s e stack binding with
    ⟨q, hres, hout, hqe, hqb, hqnn, harena, hctrle, hbounds, hinvN, hinvO⟩
  have hnodeAll : ∀ x, getNode (invokeBinding s e stack binding).1 x =
      getNode s x := by
    intro x
    simp [getNode, harena]
  have hru1 : reusableOf (invokeBinding s e stack binding).1 =
      reusableOf s := by
    funext x
    simp [reusableOf, hnodeAll x]
  have hfind1 : findResultList (invokeBinding s e stack binding).1 e
      binding = [q] := by
    have := findResultList_append s (invokeBinding s e stack binding).1 e
      binding q hres hqe (by rw [hqb]; exact itemsSubset_refl _)
    rw [hnew] at this
    simpa using this
  have hcomp1 : binding.length =
      (((getNode (invokeBinding s e stack binding).1 e).params).filter
        (fun p => reusableOf (invokeBinding s e stack binding).1 p.2)).length := by
    rw [hnodeAll e, hru1]
    exact hcomp
  have hnr1 : ((getNode (invokeBinding s e stack binding).1 e).params).filter
      (fun p => !(reusableOf (invokeBinding s e stack binding).1 p.2)) = [] := by
    rw [hnodeAll e, hru1]
    exact hnr
  have hfull1 : binding.length =
      (getNode (invokeBinding s e stack binding).1 e).params.length := by
    rw [hnodeAll e]
    exact hfull
  constructor
  · intro hrt
    have hmemo : execOneBinding fuel (invokeBinding s e stack binding).1 e
        stack binding = ((invokeBinding s e stack binding).1, q.valueList) :=
      execOneBindingWith_memoHit (execExpr fuel)
        (invokeBinding s e stack binding).1 e stack binding
        (by rw [hnodeAll e]; exact hrt) hcomp1 q [] hfind1
    have hrun2 : execOneBinding fuel (execOneBinding fuel s e stack
        binding).1 e stack binding =
        ((execOneBinding fuel s e stack binding).1,
         (execOneBinding fuel s e stack binding).2) := by
      rw [heq1, hmemo, hout]
    refine ⟨hrun2, ?_⟩
    intro hk
    rw [hrun2]
    simp only [heq1]
    exact hinvN hk
  · intro hrf
    have heq2 : execOneBinding fuel (invokeBinding s e stack binding).1 e
        stack binding =
        invokeBinding (invokeBinding s e stack binding).1 e stack binding :=
      execOneBindingWith_invoke (execExpr fuel)
        (invokeBinding s e stack binding).1 e stack binding
        (Or.inl (by rw [hnodeAll e]; exact hrf)) hcomp1 hnr1 hfull1 hnv
    rcases invokeBinding_spec (invokeBinding s e stack binding).1 e stack
        binding with
      ⟨q2, hres2, hout2, hqe2, hqb2, hqnn2, harena2, hctrle2, hbounds2,
        hinvN2, hinvO2⟩
    constructor
    · intro hk
      have hk1 : (getNode (invokeBinding s e stack binding).1 e).op.kind =
          .normal := by
        rw [hnodeAll e]; exact hk
      simp only [heq1, heq2]
      rw [hinvN2 hk1, hinvN hk]
    · intro x hx y hy
      simp only [heq1] at hx
      simp only [heq1, heq2] at hy
      rw [hout] at hx
      rw [hout2] at hy
      have hxb := hbounds x hx
      have hyb := hbounds2 y hy
      omega

/-- The C1 witness arena: two parameterless single-valued operators, one
reusable (expression 0) and one non-reusable (expression 1). -/
def c1State : EState :=
  { arena :=
      [{ op := { callableId := 20, reusable := true, kind := .normal,
                 impl := .single (fun _ => .ok (.obj 5)) },
         params := [], data := 0, dataUuid := 0 },
       { op := { callableId := 21, reusable := false, kind := .normal,
                 impl := .single (fun _ => .ok (.obj 6)) },
         params := [], data := 0, dataUuid := 0 }],
    results := [], ctr := 0, invoked := [] }

/-- Witness for C1: in `c1State`, running the reusable expression 0 twice
for the empty binding replays the first run's values and state and logs
one invocation; running the non-reusable expression 1 twice logs two
invocations and the two runs produce values with disjoint identity
tokens. -/
theorem c1_reuse_vs_freshness_witness :
    (execOneBinding 3 (execOneBinding 3 c1State 0 [] []).1 0 [] [] =
      ((execOneBinding 3 c1State 0 [] []).1,
       (execOneBinding 3 c1State 0 [] []).2) ∧
     (execOneBinding 3 (execOneBinding 3 c1State 0 [] []).1 0 [] []).1.invoked =
       c1State.invoked ++ [0]) ∧
    ((execOneBinding 3 (execOneBinding 3 c1State 1 [] []).1 1 [] []).1.invoked =
       c1State.invoked ++ [1] ++ [1] ∧
     ∀ x ∈ (execOneBinding 3 c1State 1 [] []).2,
     ∀ y ∈ (execOneBinding 3 (execOneBinding 3 c1State 1 [] []).1 1 [] []).2,
       x.evId ≠ y.evId) := by
  constructor
  · have h := (c1_reuse_vs_freshness 3 c1State 0 [] []
      (by intro p hp; simp [getNode, c1State] at hp) rfl rfl rfl).1 rfl
    exact ⟨h.1, h.2 rfl⟩
  · have h := (c1_reuse_vs_freshness 3 c1State 1 [] []
      (by intro p hp; simp [getNode, c1State] at hp) rfl rfl rfl).2 rfl
    exact ⟨h.1 rfl, h.2⟩

/-- The C7 counterexample arena: a reusable generator operator that yields
nothing at all. -/
def c7State : EState :=
  { arena := [{ op := { callableId := 30,
                        reusable := true,
                        kind := .normal,
                        impl := .gen (fun _ => ([], none)) },
                params := [], data := 0, dataUuid := 0 }],
    results := [], ctr := 0, invoked := [] }

/-- Counterexample to C7 as stated: executing an expression whose
multi-valued operator yields nothing produces an `ExprValue` whose `value`
AND `excep` are both the `NoValue` sentinel (the same happens for the
short-circuit value recorded when a parameter fails), so it is not true
that exactly one of the two fields is `NoValue` at any time. -/
theorem c7_exactly_one_sentinel_counterexample :
    (executeExpr 1 c7State 0).2.length = 1 ∧
    ((executeExpr 1 c7State 0).2.headD dummyEV).value = PyVal.noValue ∧
    ((executeExpr 1 c7State 0).2.headD dummyEV).excep = PyVal.noValue := by
  refine ⟨rfl, rfl, rfl⟩

/-- The corrected mutual-exclusion invariant: an `ExprValue` never holds an
actual value and an actual exception at the same time (at most one of the
two fields differs from `NoValue`). -/
def evAtMostOneActual (ev : EV) : Prop :=
  ev.value = PyVal.noValue ∨ ev.excep = PyVal.noValue

/-- All `ExprValue`s recorded in the result sequences satisfy the
mutual-exclusion invariant. -/
def resultsEVsOk (s : EState) : Prop :=
  ∀ q ∈ s.results, ∀ ev ∈ q.valueList, evAtMostOneActual ev

theorem genValuePairs_excep (vals : List PyVal) (ctr : Nat) :
    ∀ p ∈ genValuePairs vals ctr, p.2.1 = PyVal.noValue := by
  induction vals generalizing ctr with
  | nil => simp [genValuePairs]
  | cons v rest ih =>
    intro p hp
    rcases List.mem_cons.mp hp with hp' | hp'
    · rw [hp']
    · exact ih (ctr + 1) p hp'

theorem generatorWrapper_pairOk (impl : OpImpl)
    (args : List (String × PyVal)) (ctr : Nat) :
    ∀ p ∈ (generatorWrapper impl args ctr).1,
      p.1.1 = PyVal.noValue ∨ p.2.1 = PyVal.noValue := by
  cases impl with
  | single f =>
    cases h : f args with
    | ok v => simp [generatorWrapper, h]
    | error exc => simp [generatorWrapper, h]
  | gen g =>
    rcases hg : g args with ⟨vals, raised⟩
    cases raised with
    | none =>
      cases vals with
      | nil => simp [generatorWrapper, hg]
      | cons v rest =>
        intro p hp
        simp only [generatorWrapper, hg] at hp
        exact Or.inr (genValuePairs_excep (v :: rest) ctr p hp)
    | some exc =>
      intro p hp
      simp only [generatorWrapper, hg] at hp
      rcases List.mem_append.mp hp with hp' | hp'
      · exact Or.inr (genValuePairs_excep vals ctr p hp')
      · rcases List.mem_singleton.mp hp' with rfl
        exact Or.inl rfl

theorem mkEVs_ok (e : Nat) (binding : List (String × EV))
    (pairs : List EVPair) (ctr : Nat)
    (hp : ∀ p ∈ pairs, p.1.1 = PyVal.noValue ∨ p.2.1 = PyVal.noValue) :
    ∀ ev ∈ (mkEVs e binding pairs ctr).1, evAtMostOneActual ev := by
  induction pairs generalizing ctr with
  | nil => simp [mkEVs]
  | cons p rest ih =>
    obtain ⟨⟨v, vu⟩, ⟨x, xu⟩⟩ := p
    intro ev hev
    simp only [mkEVs, List.mem_cons] at hev
    rcases hev with rfl | hev
    · have := hp ((v, vu), (x, xu)) (List.mem_cons_self _ _)
      simpa [evAtMostOneActual, EV.value, EV.excep] using this
    · exact ih (ctr + 1) (fun p' hp' => hp p' (List.mem_cons_of_mem _ hp'))
        ev hev

theorem findResultList_subset (s : EState) (e : Nat)
    (b : List (String × EV)) (q : EVSeq) (hq : q ∈ findResultList s e b) :
    q ∈ s.results :=
  List.mem_of_mem_filter (List.mem_of_mem_filter hq)

theorem invokeBinding_ok (s : EState) (e : Nat) (stack : List Nat)
    (binding : List (String × EV)) (hs : resultsEVsOk s) :
    resultsEVsOk (invokeBinding s e stack binding).1 ∧
    ∀ ev ∈ (invokeBinding s e stack binding).2, evAtMostOneActual ev := by
  cases hk : (getNode s e).op.kind with
  | consumer =>
    constructor
    · intro q hq
      simp only [invokeBinding, hk] at hq
      rcases List.mem_append.mp hq with hq' | hq'
      · exact hs q hq'
      · rcases List.mem_singleton.mp hq' with rfl
        exact mkEVs_ok e binding _ s.ctr (by simp)
    · intro ev hev
      simp only [invokeBinding, hk] at hev
      exact mkEVs_ok e binding _ s.ctr (by simp) ev hev
  | exprData =>
    constructor
    · intro q hq
      simp only [invokeBinding, hk] at hq
      rcases List.mem_append.mp hq with hq' | hq'
      · exact hs q hq'
      · rcases List.mem_singleton.mp hq' with rfl
        exact mkEVs_ok e binding _ s.ctr (by simp)
    · intro ev hev
      simp only [invokeBinding, hk] at hev
      exact mkEVs_ok e binding _ s.ctr (by simp) ev hev
  | normal =>
    rcases hgw : generatorWrapper (getNode s e).op.impl (bindingValues binding)
        s.ctr with ⟨pairs, ctr2⟩
    have hpok : ∀ p ∈ pairs, p.1.1 = PyVal.noValue ∨ p.2.1 = PyVal.noValue := by
      have := generatorWrapper_pairOk (getNode s e).op.impl
        (bindingValues binding) s.ctr
      rw [hgw] at this
      exact this
    constructor
    · intro q hq
      simp only [invokeBinding, hk, hgw] at hq
      rcases List.mem_append.mp hq with hq' | hq'
      · exact hs q hq'
      · rcases List.mem_singleton.mp hq' with rfl
        exact mkEVs_ok e binding pairs ctr2 hpok
    · intro ev hev
      simp only [invokeBinding, hk, hgw] at hev
      exact mkEVs_ok e binding pairs ctr2 hpok ev hev

theorem foldlExec_ok (exec : EState → Nat → List Nat → EState × List EV)
    (hexec : ∀ s c st, resultsEVsOk s → resultsEVsOk (exec s c st).1)
    (st2 : List Nat) (l : List (String × Nat)) :
    ∀ (s : EState) (acc : List (String × List EV)), resultsEVsOk s →
      resultsEVsOk ((l.foldl (fun acc p =>
        ((exec acc.1 p.2 st2).1, acc.2 ++ [(p.1, (exec acc.1 p.2 st2).2)]))
        (s, acc)).1) := by
  induction l with
  | nil => intro s acc hs; exact hs
  | cons p rest ih =>
    intro s acc hs
    exact ih (exec s p.2 st2).1 (acc ++ [(p.1, (exec s p.2 st2).2)])
      (hexec s p.2 st2 hs)

/-- The loop body preserves the mutual-exclusion invariant and only yields
values satisfying it, provided the executor used for the non-reusable
parameters preserves it. -/
theorem execOneBindingWith_ok
    (exec : EState → Nat → List Nat → EState × List EV)
    (hexec : ∀ s c st, resultsEVsOk s → resultsEVsOk (exec s c st).1)
    (s : EState) (e : Nat) (stack : List Nat) (binding : List (String × EV))
    (hs : resultsEVsOk s) :
    resultsEVsOk (execOneBindingWith exec s e stack binding).1 ∧
    ∀ ev ∈ (execOneBindingWith exec s e stack binding).2,
      evAtMostOneActual ev := by
  simp only [execOneBindingWith]
  split
  next hcond =>
    refine ⟨hs, ?_⟩
    intro ev hev
    have hne : findResultList s e binding ≠ [] := by
      intro hnil
      rw [hnil] at hcond
      simp at hcond
    cases hfl : findResultList s e binding with
    | nil => exact absurd hfl hne
    | cons q rest =>
      rw [hfl] at hev
      have hq : q ∈ s.results := findResultList_subset s e binding q
        (by rw [hfl]; exact List.mem_cons_self _ _)
      exact hs q hq ev (by simpa using hev)
  next =>
    split
    next hB =>
      have hok1 : resultsEVsOk
          ((((getNode s e).params.filter (fun p => !(reusableOf s p.2))).foldl
            (fun (acc : EState × List (String × List EV)) p =>
              ((exec acc.1 p.2 (stack ++ [e])).1,
               acc.2 ++ [(p.1, (exec acc.1 p.2 (stack ++ [e])).2)]))
            (s, [])).1) :=
        foldlExec_ok exec hexec (stack ++ [e]) _ s [] hs
      dsimp only
      split
      next =>
        constructor
        · intro q hq
          rcases List.mem_append.mp hq with hq' | hq'
          · exact hok1 q hq'
          · rcases List.mem_singleton.mp hq' with rfl
            intro ev hev
            rcases List.mem_singleton.mp hev with rfl
            exact Or.inl rfl
        · intro ev hev
          rcases List.mem_singleton.mp hev with rfl
          exact Or.inl rfl
      next =>
        exact invokeBinding_ok _ e stack _ hok1
    next hB =>
      dsimp only
      split
      next =>
        constructor
        · intro q hq
          rcases List.mem_append.mp hq with hq' | hq'
          · exact hs q hq'
          · rcases List.mem_singleton.mp hq' with rfl
            intro ev hev
            rcases List.mem_singleton.mp hev with rfl
            exact Or.inl rfl
        · intro ev hev
          rcases List.mem_singleton.mp hev with rfl
          exact Or.inl rfl
      next =>
        exact invokeBinding_ok _ e stack _ hs

theorem execBindingsWith_ok
    (exec : EState → Nat → List Nat → EState × List EV)
    (hexec : ∀ s c st, resultsEVsOk s → resultsEVsOk (exec s c st).1)
    (e : Nat) (stack : List Nat) (bs : List (List (String × EV))) :
    ∀ (s : EState), resultsEVsOk s →
      resultsEVsOk (execBindingsWith exec s e stack bs).1 ∧
      ∀ ev ∈ (execBindingsWith exec s e stack bs).2,
        evAtMostOneActual ev := by
  induction bs with
  | nil =>
    intro s hs
    exact ⟨hs, by simp [execBindingsWith]⟩
  | cons b rest ih =>
    intro s hs
    have h1 := execOneBindingWith_ok exec hexec s e stack b hs
    have h2 := ih (execOneBindingWith exec s e stack b).1 h1.1
    refine ⟨h2.1, ?_⟩
    intro ev hev
    simp only [execBindingsWith, List.mem_append] at hev
    rcases hev with hev' | hev'
    · exact h1.2 ev hev'
    · exact h2.2 ev hev'

/-- C7 (amended): every `ExprValue` the engine produces or records
satisfies the corrected invariant — at most one of `value` and `excep`
holds an actual object, the other (or both, for short-circuited bindings
and empty multi-valued invocations) being the `NoValue` sentinel.
Immutability holds by construction: no engine operation rebinds a field of
an existing `ExprValue`. -/
theorem c7_amended_at_most_one_actual (fuel : Nat) (s : EState) (e : Nat)
    (stack : List Nat) (hs : resultsEVsOk s) :
    resultsEVsOk (execExpr fuel s e stack).1 ∧
    ∀ ev ∈ (execExpr fuel s e stack).2, evAtMostOneActual ev := by
  induction fuel generalizing s e stack with
  | zero =>
    exact ⟨hs, by simp [execExpr]⟩
  | succ fuel ih =>
    have hexec : ∀ s c st, resultsEVsOk s →
        resultsEVsOk (execExpr fuel s c st).1 := by
      intro s c st hs'
      exact (ih s c st hs').1
    have hfold := foldlExec_ok (execExpr fuel) hexec (stack ++ [e])
      ((getNode s e).params.filter (fun p => reusableOf s p.2)) s [] hs
    exact execBindingsWith_ok (execExpr fuel) hexec e stack _ _ hfold

/-- Witness for C7 (amended), in the counterexample arena: the initial
(empty) result store satisfies the invariant, and so do the state and the
produced values after execution. -/
theorem c7_amended_at_most_one_actual_witness :
    resultsEVsOk (execExpr 1 c7State 0 []).1 ∧
    ∀ ev ∈ (execExpr 1 c7State 0 []).2, evAtMostOneActual ev :=
  c7_amended_at_most_one_actual 1 c7State 0 []
    (by intro q hq; simp [c7State] at hq)

/-- C8: cycle policy of `_build_expr`.  When the operator currently being
expanded already appears on the path stack (`op in op_stack`): with
`cycle_handler='ignore'` the branch yields no Expression; with a callable
handler, the handler is called with the exact cyclic operator chain (the
callables of `new_op_stack`) and the branch yields no Expression; with
`cycle_handler='raise'` a `CycleError` is raised naming the full cyclic
operator chain (the names of `new_op_stack`). -/
theorem c8_cycle_policy (fuel : Nat) (op : BOp) (opMap : List (Nat × List BOp))
    (clsMap : List (Nat × List Nat)) (attrs : Nat → String → Option Nat)
    (opStack : List BOp) (nph : Handler) (log : List HandlerCall)
    (hc : opStack.contains op = true) :
    buildExpr (fuel + 1) op opMap clsMap attrs opStack nph .ignore log =
      .ok ([], log) ∧
    (∀ h : Nat,
      buildExpr (fuel + 1) op opMap clsMap attrs opStack nph (.callback h)
          log =
        .ok ([], log ++ [.cycleCall h ((op :: opStack).map (·.callableId))])) ∧
    buildExpr (fuel + 1) op opMap clsMap attrs opStack nph .fatal log =
      .error (.cycleError ((op :: opStack).map (·.name))) := by
  have hmem : op ∈ opStack := by simpa using hc
  refine ⟨?_, ?_, ?_⟩
  · simp [buildExpr, hc]
    intro hnot
    exact absurd hmem hnot
  · intro h
    simp [buildExpr, hc]
    intro hnot
    exact absurd hmem hnot
  · simp [buildExpr, hc]
    intro hnot
    exact absurd hmem hnot

/-- The cyclic operator of the C8/C9 witnesses. -/
def c8Op : BOp :=
  { opId := 1, name := "opA", callableName := "opA", callableId := 11,
    paramList := [("x", 5)], produced := 6, optionalParams := [],
    isMethod := false }

/-- Witness for C8: `c8Op` already on the stack; the three policies behave
as claimed. -/
theorem c8_cycle_policy_witness :
    [c8Op].contains c8Op = true ∧
    buildExpr 1 c8Op [] [] (fun _ _ => none) [c8Op] .fatal .ignore [] =
      .ok ([], []) ∧
    buildExpr 1 c8Op [] [] (fun _ _ => none) [c8Op] .fatal (.callback 9) [] =
      .ok ([], [] ++ [.cycleCall 9 ((c8Op :: [c8Op]).map (·.callableId))]) ∧
    buildExpr 1 c8Op [] [] (fun _ _ => none) [c8Op] .fatal .fatal [] =
      .error (.cycleError ((c8Op :: [c8Op]).map (·.name))) := by
  refine ⟨by decide, ?_, ?_, ?_⟩
  · exact (c8_cycle_policy 0 c8Op [] [] (fun _ _ => none) [c8Op] .fatal []
      (by decide)).1
  · exact (c8_cycle_policy 0 c8Op [] [] (fun _ _ => none) [c8Op] .fatal []
      (by decide)).2.1 9
  · exact (c8_cycle_policy 0 c8Op [] [] (fun _ _ => none) [c8Op] .fatal []
      (by decide)).2.2

theorem removeIndicesFrom_mem {α : Type} (idxs : List Nat) :
    ∀ (l : List α) (i : Nat) (x : α), x ∈ removeIndicesFrom idxs i l →
      x ∈ l := by
  intro l
  induction l with
  | nil =>
    intro i x hx
    simp [removeIndicesFrom] at hx
  | cons y rest ih =>
    intro i x hx
    rw [removeIndicesFrom] at hx
    by_cases hc : idxs.contains i = true
    · rw [if_pos hc] at hx
      exact List.mem_cons_of_mem _ (ih (i + 1) x hx)
    · rw [if_neg hc] at hx
      rcases List.mem_cons.mp hx with rfl | hx'
      · exact List.mem_cons_self _ _
      · exact List.mem_cons_of_mem _ (ih (i + 1) x hx')

theorem not_mem_removeIndicesFrom (idxs : List Nat) (p : String) :
    ∀ (names : List String) (i : Nat), names.Nodup → p ∈ names →
      (i + listIndexOf names p) ∈ idxs →
      p ∉ removeIndicesFrom idxs i names := by
  intro names
  induction names with
  | nil =>
    intro i _ hp
    cases hp
  | cons y rest ih =>
    intro i hnd hp hidx
    rw [removeIndicesFrom]
    by_cases hy : (y == p) = true
    · have hyp : y = p := eq_of_beq hy
      have hzero : listIndexOf (y :: rest) p = 0 := by
        simp [listIndexOf, hy]
      rw [hzero, Nat.add_zero] at hidx
      have hci : idxs.contains i = true := by
        simpa using hidx
      rw [if_pos hci]
      intro hcontra
      have hmem : p ∈ rest := removeIndicesFrom_mem idxs rest (i + 1) p hcontra
      rw [← hyp] at hmem
      exact (List.nodup_cons.mp hnd).1 hmem
    · have hyp : y ≠ p := by simpa using hy
      have hcount : listIndexOf (y :: rest) p = listIndexOf rest p + 1 := by
        simp [listIndexOf, hy]
      rw [hcount] at hidx
      have hp' : p ∈ rest := by
        rcases List.mem_cons.mp hp with h | h
        · exact absurd h.symm hyp
        · exact h
      have hidx' : ((i + 1) + listIndexOf rest p) ∈ idxs := by
        have harith : i + (listIndexOf rest p + 1) =
            (i + 1) + listIndexOf rest p := by omega
        rwa [harith] at hidx
      have hrec := ih (i + 1) (List.nodup_cons.mp hnd).2 hp' hidx'
      by_cases hci : idxs.contains i = true
      · rw [if_pos hci]
        exact hrec
      · rw [if_neg hci]
        intro hcontra
        rcases List.mem_cons.mp hcontra with h | h
        · exact hyp h.symm
        · exact hrec h

theorem not_mem_removeIndices (names : List String) (idxs : List Nat)
    (p : String) (hnd : names.Nodup) (hp : p ∈ names)
    (hidx : listIndexOf names p ∈ idxs) : p ∉ removeIndices names idxs :=
  not_mem_removeIndicesFrom idxs p names 0 hnd hp (by simpa using hidx)

theorem checkAvailability_error_mem (optional names : List String) :
    ∀ (triples : List (String × Nat × List Nat)) (c : Nat) (p : String),
      checkAvailability optional names triples = .error (c, p) →
      (p, c, ([] : List Nat)) ∈ triples ∧ optional.contains p = false := by
  intro triples
  induction triples with
  | nil =>
    intro c p h
    simp [checkAvailability] at h
  | cons t rest ih =>
    intro c p h
    obtain ⟨param, wanted, avail⟩ := t
    rw [checkAvailability] at h
    by_cases he : avail.isEmpty = true
    · rw [if_pos he] at h
      by_cases ho : optional.contains param = true
      · rw [if_pos ho] at h
        cases hrec : checkAvailability optional names rest with
        | ok ig =>
          rw [hrec] at h
          simp at h
        | error e =>
          rw [hrec] at h
          simp at h
          rw [h] at hrec
          exact (ih c p hrec).imp (List.mem_cons_of_mem _) id
      · rw [if_neg ho] at h
        simp at h
        have hav : avail = [] := List.isEmpty_iff.mp he
        refine ⟨?_, ?_⟩
        · rw [← h.2, ← h.1, ← hav]
          exact List.mem_cons_self _ _
        · rw [← h.2]
          simpa using ho
    · rw [if_neg he] at h
      exact (ih c p h).imp (List.mem_cons_of_mem _) id

theorem checkAvailability_ok_total (optional names : List String) :
    ∀ (triples : List (String × Nat × List Nat)),
      (∀ t ∈ triples, t.2.2 = [] → optional.contains t.1 = true) →
      ∃ ignored, checkAvailability optional names triples = .ok ignored := by
  intro triples
  induction triples with
  | nil =>
    intro _
    exact ⟨[], rfl⟩
  | cons t rest ih =>
    intro hall
    obtain ⟨param, wanted, avail⟩ := t
    rcases ih (fun t ht hte => hall t (List.mem_cons_of_mem _ ht) hte) with
      ⟨ig, hig⟩
    by_cases he : avail.isEmpty = true
    · have ho : optional.contains param = true :=
        hall (param, wanted, avail) (List.mem_cons_self _ _)
          (List.isEmpty_iff.mp he)
      refine ⟨listIndexOf names param :: ig, ?_⟩
      rw [checkAvailability, if_pos he, if_pos ho, hig]
    · refine ⟨ig, ?_⟩
      rw [checkAvailability, if_neg he]
      exact hig

theorem checkAvailability_ok_ignored (optional names : List String) :
    ∀ (triples : List (String × Nat × List Nat)) (ignored : List Nat),
      checkAvailability optional names triples = .ok ignored →
      ∀ t ∈ triples, t.2.2 = [] → listIndexOf names t.1 ∈ ignored := by
  intro triples
  induction triples with
  | nil =>
    intro ignored _ t ht
    cases ht
  | cons u rest ih =>
    intro ignored h t ht hte
    obtain ⟨param, wanted, avail⟩ := u
    rw [checkAvailability] at h
    by_cases he : avail.isEmpty = true
    · rw [if_pos he] at h
      by_cases ho : optional.contains param = true
      · rw [if_pos ho] at h
        cases hrec : checkAvailability optional names rest with
        | ok ig =>
          rw [hrec] at h
          simp at h
          rcases List.mem_cons.mp ht with rfl | ht'
          · rw [← h]
            exact List.mem_cons_self _ _
          · rw [← h]
            exact List.mem_cons_of_mem _ (ih ig hrec t ht' hte)
        | error e =>
          rw [hrec] at h
          simp at h
      · rw [if_neg ho] at h
        simp at h
    · rw [if_neg he] at h
      rcases List.mem_cons.mp ht with rfl | ht'
      · have hav : avail = [] := hte
        exact absurd (by rw [hav]; rfl : avail.isEmpty = true) he
      · exact ih ignored h t ht' hte

theorem zip3_mem_fst {α β γ : Type} :
    ∀ (l1 : List α) (l2 : List β) (l3 : List γ) (t : α × β × γ),
      t ∈ zip3 l1 l2 l3 → t.1 ∈ l1 := by
  intro l1
  induction l1 with
  | nil =>
    intro l2 l3 t ht
    cases l2 <;> cases l3 <;> simp [zip3] at ht
  | cons a as ih =>
    intro l2 l3 t ht
    cases l2 with
    | nil => simp [zip3] at ht
    | cons b bs =>
      cases l3 with
      | nil => simp [zip3] at ht
      | cons c cs =>
        rw [zip3] at ht
        rcases List.mem_cons.mp ht with rfl | ht'
        · exact List.mem_cons_self _ _
        · exact List.mem_cons_of_mem _ (ih bs cs t ht')

theorem combosToExprs_paramNames (op : BOp) (pnames : List String)
    (combis : List (List BExpr)) :
    ∀ ex ∈ combosToExprs op pnames pnames.length combis,
      ex.paramNames = pnames := by
  intro ex hex
  rcases List.mem_filterMap.mp hex with ⟨combi, _, hcombi⟩
  by_cases hlen : ((pnames.zip combi).length == pnames.length) = true
  · rw [if_pos hlen] at hcombi
    cases hcombi
    have hlen' : (pnames.zip combi).length = pnames.length := by
      simpa using hlen
    rw [List.length_zip] at hlen'
    have hle : pnames.length ≤ combi.length := by
      have hmin := Nat.min_le_right pnames.length combi.length
      rw [hlen'] at hmin
      exact hmin
    show (pnames.zip combi).map Prod.fst = pnames
    exact List.map_fst_zip pnames combi hle
  · rw [if_neg hlen] at hcombi
    cases hcombi

theorem buildOpCombis_paramNames
    (build : BOp → List HandlerCall →
      Except BuildErr (List BExpr × List HandlerCall))
    (op : BOp) (pnames : List String) :
    ∀ (combis : List (List BOp)) (log : List HandlerCall)
      (exprs : List BExpr) (logF : List HandlerCall),
      buildOpCombis build op pnames pnames.length combis log =
        .ok (exprs, logF) →
      ∀ ex ∈ exprs, ex.paramNames = pnames := by
  intro combis
  induction combis with
  | nil =>
    intro log exprs logF h
    rw [buildOpCombis] at h
    simp at h
    rw [h.1]
    intro ex hex
    cases hex
  | cons combi rest ih =>
    intro log exprs logF h
    rw [buildOpCombis] at h
    cases hsub : buildSubList build combi log with
    | error e =>
      rw [hsub] at h
      simp at h
    | ok pr =>
      obtain ⟨lists, log1⟩ := pr
      rw [hsub] at h
      dsimp only at h
      cases hrest : buildOpCombis build op pnames pnames.length rest log1 with
      | error e =>
        rw [hrest] at h
        simp at h
      | ok pr2 =>
        obtain ⟨more, log2⟩ := pr2
        rw [hrest] at h
        simp at h
        intro ex hex
        rw [← h.1] at hex
        rcases List.mem_append.mp hex with hex' | hex'
        · exact combosToExprs_paramNames op pnames _ ex hex'
        · exact ih log1 more log2 hrest ex hex'

theorem buildClsCombis_paramNames
    (build : BOp → List HandlerCall →
      Except BuildErr (List BExpr × List HandlerCall))
    (op : BOp) (opMap : List (Nat × List BOp)) (pnames : List String) :
    ∀ (combis : List (List Nat)) (log : List HandlerCall)
      (exprs : List BExpr) (logF : List HandlerCall),
      buildClsCombis build op opMap pnames pnames.length combis log =
        .ok (exprs, logF) →
      ∀ ex ∈ exprs, ex.paramNames = pnames := by
  intro combis
  induction combis with
  | nil =>
    intro log exprs logF h
    rw [buildClsCombis] at h
    simp at h
    rw [h.1]
    intro ex hex
    cases hex
  | cons clsCombi rest ih =>
    intro log exprs logF h
    rw [buildClsCombis] at h
    cases hop : buildOpCombis build op pnames pnames.length
        (listProduct (clsCombi.filterMap (fun c => alistGet opMap c))) log with
    | error e =>
      rw [hop] at h
      simp at h
    | ok pr =>
      obtain ⟨exprs1, log1⟩ := pr
      rw [hop] at h
      dsimp only at h
      cases hrest : buildClsCombis build op opMap pnames pnames.length rest
          log1 with
      | error e =>
        rw [hrest] at h
        simp at h
      | ok pr2 =>
        obtain ⟨more, log2⟩ := pr2
        rw [hrest] at h
        simp at h
        intro ex hex
        rw [← h.1] at hex
        rcases List.mem_append.mp hex with hex' | hex'
        · exact buildOpCombis_paramNames build op pnames _ log exprs1 log1
            hop ex hex'
        · exact ih log1 more log2 hrest ex hex'

/-- C9: unresolved-dependency policy of `_build_expr`.  (0) A
`checkAvailability` failure is exactly a required (non-optional) parameter
whose candidate class list is empty.  (1) With
`non_produced_handler='raise'`, building raises `NoOperatorError` naming
the missing class, the operator, the parameter and the path; with
`non_produced_handler='ignore'` the branch yields no Expression.  (2) An
optional parameter with no candidate producer does not block construction
(the availability check succeeds, provided every missing parameter is
optional) and is omitted from every built Expression. -/
theorem c9_non_produced_policy :
    (∀ (optional names : List String)
        (triples : List (String × Nat × List Nat)) (c : Nat) (p : String),
      checkAvailability optional names triples = .error (c, p) →
      (p, c, ([] : List Nat)) ∈ triples ∧ optional.contains p = false) ∧
    (∀ (fuel : Nat) (op : BOp) (opMap : List (Nat × List BOp))
        (clsMap : List (Nat × List Nat)) (attrs : Nat → String → Option Nat)
        (opStack : List BOp) (ch : Handler) (log : List HandlerCall)
        (c : Nat) (p : String),
      opStack.contains op = false →
      op.paramList.isEmpty = false →
      checkAvailability op.optionalParams (op.paramList.map (·.1))
        (availabilityTriples op clsMap attrs) = .error (c, p) →
      buildExpr (fuel + 1) op opMap clsMap attrs opStack .fatal ch log =
        .error (.noOperatorError c op.name p
          ((op :: opStack).map (·.name))) ∧
      buildExpr (fuel + 1) op opMap clsMap attrs opStack .ignore ch log =
        .ok ([], log)) ∧
    (∀ (fuel : Nat) (op : BOp) (opMap : List (Nat × List BOp))
        (clsMap : List (Nat × List Nat)) (attrs : Nat → String → Option Nat)
        (opStack : List BOp) (nph ch : Handler) (log : List HandlerCall)
        (p : String) (c : Nat),
      opStack.contains op = false →
      op.paramList.isEmpty = false →
      (∀ t ∈ availabilityTriples op clsMap attrs, t.2.2 = [] →
        op.optionalParams.contains t.1 = true) →
      (p, c, ([] : List Nat)) ∈ availabilityTriples op clsMap attrs →
      (op.paramList.map (·.1)).Nodup →
      ∃ ignored,
        checkAvailability op.optionalParams (op.paramList.map (·.1))
          (availabilityTriples op clsMap attrs) = .ok ignored ∧
        ∀ (exprs : List BExpr) (logF : List HandlerCall),
          buildExpr (fuel + 1) op opMap clsMap attrs opStack nph ch log =
            .ok (exprs, logF) →
          ∀ ex ∈ exprs, p ∉ ex.paramNames) := by
  refine ⟨?_, ?_, ?_⟩
  · intro optional names triples c p h
    exact checkAvailability_error_mem optional names triples c p h
  · intro fuel op opMap clsMap attrs opStack ch log c p hnc hne hchk
    constructor
    · simp [buildExpr, hnc, hne, hchk]
      intro hmem
      exact absurd hmem (by simpa using hnc)
    · simp [buildExpr, hnc, hne, hchk]
      intro hmem
      exact absurd hmem (by simpa using hnc)
  · intro fuel op opMap clsMap attrs opStack nph ch log p c hnc hne hall
      hpmem hnd
    rcases checkAvailability_ok_total op.optionalParams
        (op.paramList.map (·.1)) (availabilityTriples op clsMap attrs)
        hall with ⟨ignored, hok⟩
    refine ⟨ignored, hok, ?_⟩
    intro exprs logF h
    have hidx : listIndexOf (op.paramList.map (·.1)) p ∈ ignored :=
      checkAvailability_ok_ignored op.optionalParams
        (op.paramList.map (·.1)) (availabilityTriples op clsMap attrs)
        ignored hok (p, c, []) hpmem rfl
    have hpmem2 : (p, c, ([] : List Nat)) ∈
        zip3 (op.paramList.map (·.1)) (op.paramList.map (·.2))
          (candidateClsCombis op clsMap attrs) := hpmem
    have hpn : p ∈ op.paramList.map (·.1) :=
      zip3_mem_fst (op.paramList.map (·.1)) (op.paramList.map (·.2))
        (candidateClsCombis op clsMap attrs) (p, c, []) hpmem2
    have hnotin : p ∉ removeIndices (op.paramList.map (·.1)) ignored :=
      not_mem_removeIndices (op.paramList.map (·.1)) ignored p hnd hpn hidx
    simp only [buildExpr] at h
    rw [if_neg (by simpa using hnc)] at h
    rw [if_neg (by simpa [List.isEmpty_iff] using hne)] at h
    rw [hok] at h
    intro ex hex
    have hnames := buildClsCombis_paramNames
      (fun pop log => buildExpr fuel pop opMap clsMap attrs (op :: opStack)
        nph ch log)
      op opMap (removeIndices (op.paramList.map (·.1)) ignored) _ log exprs
      logF h ex hex
    rw [hnames]
    exact hnotin

/-- C9 witness op: one required parameter `x` of class 5 with no
producer. -/
def c9OpMissing : BOp :=
  { opId := 2, name := "opM", callableName := "opM", callableId := 12,
    paramList := [("x", 5)], produced := 7, optionalParams := [],
    isMethod := false }

/-- C9 witness producer of class 5. -/
def c9Prod : BOp :=
  { opId := 3, name := "prod5", callableName := "prod5", callableId := 13,
    paramList := [], produced := 5, optionalParams := [], isMethod := false }

/-- C9 witness op: required `x` (class 5, produced) and optional `y`
(class 6, no producer). -/
def c9OpOptional : BOp :=
  { opId := 4, name := "opO", callableName := "opO", callableId := 14,
    paramList := [("x", 5), ("y", 6)], produced := 8,
    optionalParams := ["y"], isMethod := false }

def c9ClsMap : List (Nat × List Nat) := [(5, [5])]

def c9OpMap : List (Nat × List BOp) := [(5, [c9Prod])]

/-- Witness for C9: the missing-required case errors with `raise` and
yields nothing with `ignore`; the missing-optional case does not block and
omits the parameter from every built Expression. -/
theorem c9_non_produced_policy_witness :
    checkAvailability c9OpMissing.optionalParams
      (c9OpMissing.paramList.map (·.1))
      (availabilityTriples c9OpMissing [] (fun _ _ => none)) =
      .error (5, "x") ∧
    buildExpr 1 c9OpMissing [] [] (fun _ _ => none) [] .fatal .fatal [] =
      .error (.noOperatorError 5 c9OpMissing.name "x"
        ((c9OpMissing :: []).map (·.name))) ∧
    buildExpr 1 c9OpMissing [] [] (fun _ _ => none) [] .ignore .fatal [] =
      .ok ([], []) ∧
    (∃ ignored,
      checkAvailability c9OpOptional.optionalParams
        (c9OpOptional.paramList.map (·.1))
        (availabilityTriples c9OpOptional c9ClsMap (fun _ _ => none)) =
        .ok ignored ∧
      ∀ (exprs : List BExpr) (logF : List HandlerCall),
        buildExpr 2 c9OpOptional c9OpMap c9ClsMap (fun _ _ => none) []
          .fatal .fatal [] = .ok (exprs, logF) →
        ∀ ex ∈ exprs, "y" ∉ ex.paramNames) := by
  refine ⟨rfl, ?_, ?_, ?_⟩
  · exact ((c9_non_produced_policy.2.1 0 c9OpMissing [] [] (fun _ _ => none)
      [] .fatal [] 5 "x" rfl rfl rfl)).1
  · exact ((c9_non_produced_policy.2.1 0 c9OpMissing [] [] (fun _ _ => none)
      [] .fatal [] 5 "x" rfl rfl rfl)).2
  · exact c9_non_produced_policy.2.2 1 c9OpOptional c9OpMap c9ClsMap
      (fun _ _ => none) [] .fatal .fatal [] "y" 6 rfl rfl (by decide)
      (by decide) (by decide)
